import Mathlib

/-!
Shorty: shortlink store and HTTP handlers.

A shallow embedding of `main.go`, `db.go` and `shortlink.go`.

* The pattern of `invalidShort` is embedded as its compiled node list and run by a
  small backtracking matcher with the unanchored-search semantics of
  `regexp.MatchString`.
* The MongoDB collection is embedded as the list of its documents in natural order,
  guarded by the unique index on `short` that `Connect` creates. Every collection
  call is one atomic step and always reaches the server: connectivity failures and
  timeouts are outside the model, so the `500` branches of the handlers are kept
  but never taken by a failure of the connection. The store keeps `access_count`
  in a 64-bit integer and refuses an `$inc` beyond its largest value. Timestamps
  are integers at the resolution of the store.
* `time.Now`, `primitive.NewObjectID` and `url.ParseRequestURI` belong to the
  environment `Env`; the theorems hold for every environment.
* A `gin.Context` is the list of writes a handler performed, oldest first.
-/

namespace Shorty

/-! ## The pattern of `invalidShort` -/

/-- Node of a compiled pattern: the anchors and a repeated character class. -/
inductive Node where
  | beginText
  | endText
  | plusClass (ranges : List (Char × Char))
deriving Repr

/-- Membership of a character in a class given by inclusive ranges. -/
def inClass (ranges : List (Char × Char)) (c : Char) : Bool :=
  ranges.any fun r => decide (r.1.toNat ≤ c.toNat) && decide (c.toNat ≤ r.2.toNat)

/-- One or more class characters followed by whatever `k` accepts. -/
def matchPlus (ranges : List (Char × Char)) (k : List Char → Bool) : List Char → Bool
  | [] => false
  | c :: cs => inClass ranges c && (k cs || matchPlus ranges k cs)

/-- Match of the node list at the current position; `atStart` tells whether the
position is the beginning of the text. -/
def matchHere : List Node → Bool → List Char → Bool
  | [], _, _ => true
  | Node.beginText :: rest, atStart, s => atStart && matchHere rest atStart s
  | Node.endText :: rest, atStart, s => s.isEmpty && matchHere rest atStart s
  | Node.plusClass r :: rest, _, s => matchPlus r (fun t => matchHere rest false t) s

/-- Unanchored search: a match may begin at any position of the text. -/
def matchAnywhere (p : List Node) : Bool → List Char → Bool
  | atStart, [] => matchHere p atStart []
  | atStart, c :: cs => matchHere p atStart (c :: cs) || matchAnywhere p false cs

/-- The compiled form of `^[a-zA-Z0-9\-_]+$`. -/
def shortPattern : List Node :=
  [Node.beginText,
   Node.plusClass [('a', 'z'), ('A', 'Z'), ('0', '9'), ('-', '-'), ('_', '_')],
   Node.endText]

/-- The result pair of `regexp.MatchString`: whether the text contains a match, and
the compile error, which a pattern given in compiled form does not have. -/
def MatchString (p : List Node) (s : String) : Bool × Option String :=
  (matchAnywhere p true s.toList, none)

/-! ## Entities (`shortlink.go`) -/

abbrev ObjectID := Nat

abbrev Time := Int

/-- Shortlink object as stored in the collection. -/
structure Shortlink where
  ID : ObjectID
  ShortUrl : String
  LongUrl : String
  Description : String
  AccessCount : Int
  CreatedAt : Time
  UpdatedAt : Time
deriving DecidableEq, Repr

/-- Shortlink update struct. -/
structure ShortlinkUpdate where
  ShortUrl : String
  LongUrl : String
  Description : String
  UpdatedAt : Time
deriving DecidableEq, Repr

/-! ## The document collection -/

/-- Errors a collection call returns. -/
inductive StoreError where
  | ErrNoDocuments
  | DuplicateKey
  | Other (msg : String)
deriving DecidableEq, Repr

/-- Text of `err.Error()`. -/
def StoreError.Error : StoreError → String
  | StoreError.ErrNoDocuments => "mongo: no documents in result"
  | StoreError.DuplicateKey => "E11000 duplicate key error"
  | StoreError.Other msg => msg

/-- Documents before the first one whose `short` is the filter value, that
document, and the documents after it. -/
def findFirst (short : String) : List Shortlink → Option (List Shortlink × Shortlink × List Shortlink)
  | [] => none
  | d :: ds =>
    if d.ShortUrl = short then some ([], d, ds)
    else match findFirst short ds with
      | none => none
      | some (pre, e, post) => some (d :: pre, e, post)

/-- Whether some document of the list has this `short`: the unique index lookup. -/
def hasShort (short : String) (docs : List Shortlink) : Bool :=
  docs.any fun d => decide (d.ShortUrl = short)

/-- `coll.InsertOne`: appends the document unless the unique index on `short`
rejects it. -/
def collInsertOne (coll : List Shortlink) (doc : Shortlink) : Except StoreError (List Shortlink) :=
  if hasShort doc.ShortUrl coll then Except.error StoreError.DuplicateKey
  else Except.ok (coll ++ [doc])

/-- `coll.FindOne` with filter `short`. -/
def collFindOne (coll : List Shortlink) (short : String) : Except StoreError Shortlink :=
  match findFirst short coll with
  | none => Except.error StoreError.ErrNoDocuments
  | some (_, d, _) => Except.ok d

/-- `coll.FindOneAndUpdate` with filter `short`, no upsert, returning the document
after the update. The store may refuse to apply the update operator to the
document it found; an update that changes the indexed `short` is rejected when
another document already has the new value. -/
def collFindOneAndUpdate (coll : List Shortlink) (short : String)
    (update : Shortlink → Except StoreError Shortlink) :
    Except StoreError (Shortlink × List Shortlink) :=
  match findFirst short coll with
  | none => Except.error StoreError.ErrNoDocuments
  | some (pre, d, post) =>
    match update d with
    | Except.error err => Except.error err
    | Except.ok updated =>
      if updated.ShortUrl ≠ d.ShortUrl ∧ hasShort updated.ShortUrl (pre ++ post) = true then
        Except.error StoreError.DuplicateKey
      else Except.ok (updated, pre ++ updated :: post)

/-- `coll.DeleteMany` with filter `short`: the deleted count and the remaining
documents. -/
def collDeleteMany (coll : List Shortlink) (short : String) : Int × List Shortlink :=
  ((coll.countP fun d => decide (d.ShortUrl = short) : Nat),
   coll.filter fun d => !decide (d.ShortUrl = short))

/-! ## Environment and world -/

/-- The fields of `url.URL` the validators read. -/
structure URL where
  Scheme : String
  Host : String
deriving DecidableEq, Repr

/-- What the program takes from outside: the clock, the id generator and the
URL parser of the standard library. -/
structure Env where
  clock : Nat → Time
  objectID : Nat → ObjectID
  ParseRequestURI : String → Except String URL

/-- Collection methods, as recorded in the call log. -/
inductive StoreCall where
  | Find
  | FindOne
  | InsertOne
  | FindOneAndUpdate
  | DeleteMany
deriving DecidableEq, Repr

/-- State of the service: the collection, how many clock readings and object ids
were taken, and the log of collection calls made so far. -/
structure World where
  coll : List Shortlink
  clockReads : Nat
  idsDrawn : Nat
  calls : List StoreCall
deriving DecidableEq, Repr

/-- The service right after `Connect` on an empty collection. -/
def World.init : World := ⟨[], 0, 0, []⟩

/-- Reading of `time.Now()`. -/
def Now (env : Env) (w : World) : Time × World :=
  (env.clock w.clockReads, { w with clockReads := w.clockReads + 1 })

/-- Result of `primitive.NewObjectID()`. -/
def NewObjectID (env : Env) (w : World) : ObjectID × World :=
  (env.objectID w.idsDrawn, { w with idsDrawn := w.idsDrawn + 1 })

/-- Records one collection call. -/
def World.call (w : World) (op : StoreCall) : World :=
  { w with calls := w.calls ++ [op] }

/-! ## Database functions (`db.go`) -/

/-- Check if is Mongo no document found error. -/
def isNotFundError (err : StoreError) : Bool :=
  decide (err = StoreError.ErrNoDocuments)

/-- Check if is duplicate error. -/
def isDuplicateError (err : StoreError) : Bool :=
  decide (err = StoreError.DuplicateKey)

/-- GetAllShortlinks retrieves all shortlinks. -/
def GetAllShortlinks (w : World) : Except StoreError (List Shortlink) × World :=
  (Except.ok w.coll, w.call StoreCall.Find)

/-- GetShortlinkByShort retrieves a shortlink by its short. -/
def GetShortlinkByShort (short : String) (w : World) : Except StoreError Shortlink × World :=
  (collFindOne w.coll short, w.call StoreCall.FindOne)

/-- Create a shortlink in the database; the error is `none` on success. -/
def Create (env : Env) (shortlink : Shortlink) (w : World) : Option StoreError × World :=
  let (id, w) := NewObjectID env w
  let shortlink := { shortlink with ID := id }
  let (t, w) := Now env w
  let shortlink := { shortlink with CreatedAt := t }
  let (t, w) := Now env w
  let shortlink := { shortlink with UpdatedAt := t }
  let w := w.call StoreCall.InsertOne
  match collInsertOne w.coll shortlink with
  | Except.error err => (some err, w)
  | Except.ok coll => (none, { w with coll := coll })

/-- The document after the fields of a `ShortlinkUpdate` were set in it. -/
def setFields (u : ShortlinkUpdate) (d : Shortlink) : Shortlink :=
  { d with ShortUrl := u.ShortUrl, LongUrl := u.LongUrl, Description := u.Description,
           UpdatedAt := u.UpdatedAt }

/-- The `$set` update built from a `ShortlinkUpdate`: the store applies it to every
document. -/
def setUpdate (u : ShortlinkUpdate) (d : Shortlink) : Except StoreError Shortlink :=
  Except.ok (setFields u d)

/-- Update an existing shortlink `short` with new data `shortlink`. -/
def Update (env : Env) (short : String) (shortlink : ShortlinkUpdate) (w : World) :
    Except StoreError Shortlink × World :=
  let (t, w) := Now env w
  let shortlink := { shortlink with UpdatedAt := t }
  let w := w.call StoreCall.FindOneAndUpdate
  match collFindOneAndUpdate w.coll short (setUpdate shortlink) with
  | Except.error err => (Except.error err, w)
  | Except.ok (updatedShortlink, coll) => (Except.ok updatedShortlink, { w with coll := coll })

/-- Delete an existing shortlink from the database. -/
def Delete (short : String) (w : World) : Except StoreError Int × World :=
  let w := w.call StoreCall.DeleteMany
  let res := collDeleteMany w.coll short
  (Except.ok res.1, { w with coll := res.2 })

/-- Largest value of the 64-bit integer in which the store keeps `access_count`
(the field is a Go `int`). -/
def maxInt64 : Int := 9223372036854775807

/-- The `$inc` update of `access_count` by one: the store refuses it when the
counter already has the largest 64-bit value. -/
def incAccessCount (d : Shortlink) : Except StoreError Shortlink :=
  if d.AccessCount < maxInt64 then Except.ok { d with AccessCount := d.AccessCount + 1 }
  else Except.error (StoreError.Other "Failed to apply $inc operations to current value")

/-- GetRedirect retrieves the URL for a shortlink and counts the access. -/
def GetRedirect (short : String) (w : World) : Except StoreError String × World :=
  let w := w.call StoreCall.FindOneAndUpdate
  match collFindOneAndUpdate w.coll short incAccessCount with
  | Except.error err => (Except.error err, w)
  | Except.ok (result, coll) => (Except.ok result.LongUrl, { w with coll := coll })

/-- IsFree returns true if there is no matching shortlink, false otherwise. -/
def IsFree (short : String) (w : World) : Except StoreError Bool × World :=
  let w := w.call StoreCall.FindOne
  match collFindOne w.coll short with
  | Except.error err =>
    if isNotFundError err then (Except.ok true, w) else (Except.error err, w)
  | Except.ok _ => (Except.ok false, w)

/-! ## The gin context and request bodies -/

/-- Value handed to `c.JSON`: one of the `gin.H` objects of the handlers, a
shortlink or the list of all shortlinks. -/
inductive Payload where
  | error (msg : String)
  | deleted (n : Int)
  | free (b : Bool)
  | shortlink (s : Shortlink)
  | shortlinks (l : List Shortlink)
deriving DecidableEq, Repr

/-- One write to the `gin.Context`: `c.JSON`, `c.Status` or `c.Redirect`. -/
inductive Write where
  | JSON (code : Nat) (obj : Payload)
  | Status (code : Nat)
  | Redirect (code : Nat) (location : String)
deriving DecidableEq, Repr

/-- The writes a handler has performed so far, oldest first. -/
abbrev Context := List Write

abbrev StatusOK : Nat := 200

abbrev StatusCreated : Nat := 201

abbrev StatusTemporaryRedirect : Nat := 307

abbrev StatusBadRequest : Nat := 400

abbrev StatusNotFound : Nat := 404

abbrev StatusConflict : Nat := 409

abbrev StatusInternalServerError : Nat := 500

/-- Members of a JSON request body that the payload structs declare; a member the
body leaves out has the zero value of its Go type. -/
structure JSONBody where
  short : String
  long : String
  descr : String
  access_count : Int
  created_at : Time
  updated_at : Time
deriving DecidableEq, Repr

/-- Result of `c.ShouldBindJSON` into a `Shortlink`; a body that does not bind is
given by its error text. `ID` is tagged `json:"-"` and keeps its zero value. -/
def bindShortlink (body : Except String JSONBody) : Except String Shortlink :=
  match body with
  | Except.error err => Except.error err
  | Except.ok b => Except.ok ⟨0, b.short, b.long, b.descr, b.access_count, b.created_at, b.updated_at⟩

/-- Result of `c.ShouldBindJSON` into a `ShortlinkUpdate`. -/
def bindShortlinkUpdate (body : Except String JSONBody) : Except String ShortlinkUpdate :=
  match body with
  | Except.error err => Except.error err
  | Except.ok b => Except.ok ⟨b.short, b.long, b.descr, b.updated_at⟩

/-! ## Validators (`main.go`) -/

/-- Validator `invalidURL`: true, with a 400 written to the context, if the input
does not represent a valid URL. -/
def invalidURL (env : Env) (input : String) (c : Context) : Bool × Context :=
  match env.ParseRequestURI input with
  | Except.error _ => (true, c ++ [Write.JSON StatusBadRequest (Payload.error "invalid redirect url")])
  | Except.ok u =>
    if u.Scheme == "" || u.Host == "" then
      (true, c ++ [Write.JSON StatusBadRequest (Payload.error "invalid redirect url")])
    else (false, c)

/-- Validator `invalidShort`: true, with a 400 written to the context, if the input
does not match the pattern. -/
def invalidShort (input : String) (c : Context) : Bool × Context :=
  let (m, e) := MatchString shortPattern input
  if !m || e.isSome then
    (true, c ++ [Write.JSON StatusBadRequest (Payload.error "invalid short does not match ^[a-zA-Z0-9\\-_]+$")])
  else (false, c)

/-! ## Handlers (`main.go`) -/

/-- Handler for GET /shortlinks. -/
def handleGetShortlinks (c : Context) (w : World) : Context × World :=
  match GetAllShortlinks w with
  | (Except.error err, w) =>
    (c ++ [Write.JSON StatusInternalServerError (Payload.error err.Error)], w)
  | (Except.ok loadedShortlinks, w) =>
    (c ++ [Write.JSON StatusOK (Payload.shortlinks loadedShortlinks)], w)

/-- Handler for GET /shortlinks/:short. -/
def handleGetShortlink (short : String) (c : Context) (w : World) : Context × World :=
  match invalidShort short c with
  | (true, c) => (c, w)
  | (false, c) =>
    match GetShortlinkByShort short w with
    | (Except.error err, w) =>
      if isNotFundError err then
        (c ++ [Write.JSON StatusNotFound (Payload.error "shortlink not found")], w)
      else (c ++ [Write.JSON StatusInternalServerError (Payload.error err.Error)], w)
    | (Except.ok loadedShortlink, w) =>
      (c ++ [Write.JSON StatusOK (Payload.shortlink loadedShortlink)], w)

/-- Handler for POST /shortlinks. -/
def handleCreateShortlink (env : Env) (body : Except String JSONBody) (c : Context) (w : World) :
    Context × World :=
  match bindShortlink body with
  | Except.error err => (c ++ [Write.JSON StatusBadRequest (Payload.error err)], w)
  | Except.ok shortlink =>
    match invalidShort shortlink.ShortUrl c with
    | (true, c) => (c, w)
    | (false, c) =>
      match invalidURL env shortlink.LongUrl c with
      | (true, c) => (c, w)
      | (false, c) =>
        match Create env shortlink w with
        | (some err, w) =>
          if isDuplicateError err then
            (c ++ [Write.JSON StatusConflict (Payload.error "shortlink already exists")], w)
          else (c ++ [Write.JSON StatusInternalServerError (Payload.error err.Error)], w)
        | (none, w) => (c ++ [Write.Status StatusCreated], w)

/-- Handler for PUT /shortlinks/:short. -/
def handleUpdateShortlink (env : Env) (short : String) (body : Except String JSONBody)
    (c : Context) (w : World) : Context × World :=
  match invalidShort short c with
  | (true, c) => (c, w)
  | (false, c) =>
    match bindShortlinkUpdate body with
    | Except.error err => (c ++ [Write.JSON StatusBadRequest (Payload.error err)], w)
    | Except.ok shortlink =>
      match invalidShort shortlink.ShortUrl c with
      | (true, c) => (c, w)
      | (false, c) =>
        match invalidURL env shortlink.LongUrl c with
        | (true, c) => (c, w)
        | (false, c) =>
          match Update env short shortlink w with
          | (Except.error err, w) =>
            if isDuplicateError err then
              (c ++ [Write.JSON StatusConflict (Payload.error "shortlink already exists")], w)
            else if isNotFundError err then
              (c ++ [Write.JSON StatusNotFound (Payload.error "shortlink not found")], w)
            else (c ++ [Write.JSON StatusInternalServerError (Payload.error err.Error)], w)
          | (Except.ok savedShortlink, w) =>
            (c ++ [Write.JSON StatusOK (Payload.shortlink savedShortlink)], w)

/-- Handler for DELETE /shortlinks/:short. -/
def handleDeleteShortlink (short : String) (c : Context) (w : World) : Context × World :=
  match invalidShort short c with
  | (true, c) => (c, w)
  | (false, c) =>
    match Delete short w with
    | (Except.error err, w) =>
      (c ++ [Write.JSON StatusInternalServerError (Payload.error err.Error)], w)
    | (Except.ok num_deleted, w) => (c ++ [Write.JSON StatusOK (Payload.deleted num_deleted)], w)

/-- Handler for GET /go/:short. -/
def handleRedirect (short : String) (c : Context) (w : World) : Context × World :=
  match invalidShort short c with
  | (true, c) => (c, w)
  | (false, c) =>
    match GetRedirect short w with
    | (Except.error err, w) =>
      if isNotFundError err then
        (c ++ [Write.JSON StatusNotFound (Payload.error ("no redirect for " ++ short))], w)
      else (c ++ [Write.JSON StatusInternalServerError (Payload.error err.Error)], w)
    | (Except.ok link, w) => (c ++ [Write.Redirect StatusTemporaryRedirect link], w)

/-- Handler for GET /check/:short. -/
def handleCheck (short : String) (c : Context) (w : World) : Context × World :=
  match invalidShort short c with
  | (true, c) => (c, w)
  | (false, c) =>
    match IsFree short w with
    | (Except.error err, w) =>
      (c ++ [Write.JSON StatusInternalServerError (Payload.error err.Error)], w)
    | (Except.ok free, w) => (c ++ [Write.JSON StatusOK (Payload.free free)], w)

/-! ## Routes -/

/-- A request to one of the routes of `setupRoutes`. -/
inductive Request where
  | redirect (short : String)
  | getShortlinks
  | getShortlink (short : String)
  | updateShortlink (short : String) (body : Except String JSONBody)
  | createShortlink (body : Except String JSONBody)
  | deleteShortlink (short : String)
  | check (short : String)

/-- The router: runs the handler of the route on a fresh context. -/
def serve (env : Env) (r : Request) (w : World) : Context × World :=
  match r with
  | Request.redirect short => handleRedirect short [] w
  | Request.getShortlinks => handleGetShortlinks [] w
  | Request.getShortlink short => handleGetShortlink short [] w
  | Request.updateShortlink short body => handleUpdateShortlink env short body [] w
  | Request.createShortlink body => handleCreateShortlink env body [] w
  | Request.deleteShortlink short => handleDeleteShortlink short [] w
  | Request.check short => handleCheck short [] w

/-- The world after serving a sequence of requests in order. -/
def run (env : Env) (rs : List Request) (w : World) : World :=
  rs.foldl (fun w r => (serve env r w).2) w

/-! ## Sample environment -/

/-- Splits a text at the first `://` into what stands before and after it. -/
def splitScheme : List Char → Option (List Char × List Char)
  | [] => none
  | ':' :: '/' :: '/' :: rest => some ([], rest)
  | c :: cs =>
    match splitScheme cs with
    | none => none
    | some (scheme, rest) => some (c :: scheme, rest)

/-- A small stand-in for `url.ParseRequestURI`, used only to run the handlers on
concrete inputs: `scheme://host/...` parses, a text with a blank or without
`://` does not. -/
def sampleParse (input : String) : Except String URL :=
  if input.toList.contains ' ' then Except.error "invalid character in host name"
  else match splitScheme input.toList with
    | none => Except.error "invalid URI for request"
    | some (scheme, rest) =>
      Except.ok ⟨String.mk scheme, String.mk (rest.takeWhile fun c => c != '/')⟩

/-- Sample environment: a clock that advances by one per reading from 1000, ids
counted from 1, and the sample URL parser. -/
def sampleEnv : Env := ⟨fun n => 1000 + (n : Int), fun n => n + 1, sampleParse⟩

/-- The body of the example shortlink of the test suite. -/
def exampleBody : JSONBody := ⟨"ex", "http://example.com", "Example item", 0, 0, 0⟩

/-! ## The rules in the words of the specification -/

/-- A character of the key-syntax rule: one of A-Z, a-z, 0-9, `-` or `_`. -/
def KeyChar (c : Char) : Prop :=
  ('A' ≤ c ∧ c ≤ 'Z') ∨ ('a' ≤ c ∧ c ≤ 'z') ∨ ('0' ≤ c ∧ c ≤ '9') ∨ c = '-' ∨ c = '_'

/-- The key-syntax rule: one or more characters, each from `[A-Za-z0-9_-]`. -/
def ValidShortKey (s : String) : Prop :=
  s ≠ "" ∧ ∀ c ∈ s.toList, KeyChar c

/-- The URL rule fails: the text does not parse, or has an empty scheme or an
empty host. -/
def URLRuleFails (env : Env) (long : String) : Prop :=
  match env.ParseRequestURI long with
  | Except.error _ => True
  | Except.ok u => u.Scheme = "" ∨ u.Host = ""

/-- The short keys a request carries: the path parameter, then the short of a
payload that binds. -/
def Request.shorts : Request → List String
  | Request.redirect short => [short]
  | Request.getShortlinks => []
  | Request.getShortlink short => [short]
  | Request.updateShortlink short (Except.ok b) => [short, b.short]
  | Request.updateShortlink short (Except.error _) => [short]
  | Request.createShortlink (Except.ok b) => [b.short]
  | Request.createShortlink (Except.error _) => []
  | Request.deleteShortlink short => [short]
  | Request.check short => [short]

/-- The long of the payload of a create or update request whose body binds. -/
def Request.long : Request → Option String
  | Request.updateShortlink _ (Except.ok b) => some b.long
  | Request.createShortlink (Except.ok b) => some b.long
  | _ => none

/-- The unique index on `short`: no two documents share a short. -/
def UniqueShorts (coll : List Shortlink) : Prop :=
  (coll.map Shortlink.ShortUrl).Nodup

/-! ## Following one entity through a sequence of requests -/

/-- The short under which the entity stored under `key` is found after the
request: an update of `key` that is answered 200 moves it to the short of the
returned entity, every other request leaves it. -/
def keyAfter (env : Env) (key : String) (r : Request) (w : World) : String :=
  match r, (serve env r w).1 with
  | Request.updateShortlink short _, [Write.JSON 200 (Payload.shortlink e)] =>
    if short = key then e.ShortUrl else key
  | _, _ => key

/-- Counts the request as 1 if it is a redirect resolution of `key`, that is a
redirect of `key` answered 307, and as 0 otherwise. -/
def redirectsOf (env : Env) (key : String) (r : Request) (w : World) : Nat :=
  match r, (serve env r w).1 with
  | Request.redirect short, [Write.Redirect 307 _] => if short = key then 1 else 0
  | _, _ => 0

/-- Whether the request is a delete of `key`. -/
def isDeleteOf (key : String) : Request → Bool
  | Request.deleteShortlink short => decide (short = key)
  | _ => false

/-- The short of the followed entity after the whole sequence. -/
def finalKey (env : Env) : String → List Request → World → String
  | key, [], _ => key
  | key, r :: rs, w => finalKey env (keyAfter env key r w) rs (serve env r w).2

/-- The number of redirect resolutions of the followed entity in the sequence. -/
def countRedirects (env : Env) : String → List Request → World → Nat
  | _, [], _ => 0
  | key, r :: rs, w =>
    redirectsOf env key r w + countRedirects env (keyAfter env key r w) rs (serve env r w).2

/-- Whether the sequence holds no delete of the followed entity. -/
def neverDeleted (env : Env) : String → List Request → World → Bool
  | _, [], _ => true
  | key, r :: rs, w =>
    !isDeleteOf key r && neverDeleted env (keyAfter env key r w) rs (serve env r w).2

/-! ## Sample store -/

/-- The example shortlink as the first create on the empty store leaves it. -/
def sampleDoc : Shortlink := ⟨1, "ex", "http://example.com", "Example item", 0, 1000, 1001⟩

/-- The sample service after the example shortlink was created. -/
def sampleWorld : World := ⟨[sampleDoc], 2, 1, [StoreCall.InsertOne]⟩

/-- Payload that renames the example shortlink to `newurl`. -/
def renameBody : JSONBody := ⟨"newurl", "http://example.com", "Example item", 0, 0, 0⟩

/-- Whether the request carries `s` as the short of a payload that binds: a create
of `s`, or an update that renames to `s`. -/
def writesShort (s : String) : Request → Bool
  | Request.createShortlink (Except.ok b) => decide (b.short = s)
  | Request.updateShortlink _ (Except.ok b) => decide (b.short = s)
  | _ => false

/-- A well-formed entity: its short matches the key-syntax rule and its long passes
the URL rule. -/
def WellFormed (env : Env) (d : Shortlink) : Prop :=
  ValidShortKey d.ShortUrl ∧ ¬ URLRuleFails env d.LongUrl

/-- Both timestamps of the entity are clock readings the service has taken, the one
of `created_at` not later in the sequence of readings than the one of `updated_at`. -/
def Stamped (env : Env) (w : World) (d : Shortlink) : Prop :=
  ∃ k j, k ≤ j ∧ j < w.clockReads ∧ d.CreatedAt = env.clock k ∧ d.UpdatedAt = env.clock j

/-- Create payload for the example shortlink that carries the largest 64-bit value
as `access_count`. -/
def maxedBody : JSONBody :=
  ⟨"ex", "http://example.com", "Example item", 9223372036854775807, 0, 0⟩

/-- The sample service after `maxedBody` was created on the empty store. -/
def maxedWorld : World :=
  ⟨[⟨1, "ex", "http://example.com", "Example item", 9223372036854775807, 1000, 1001⟩], 2, 1,
    [StoreCall.InsertOne]⟩

/-! ## Theorems -/

theorem char_le_iff_toNat (a b : Char) : a ≤ b ↔ a.toNat ≤ b.toNat := by
  rfl

theorem char_eq_iff_toNat (a b : Char) : a = b ↔ a.toNat = b.toNat := by
  constructor
  · intro h; rw [h]
  · intro h
    apply Char.ext
    apply UInt32.ext
    exact h

theorem inClass_short_iff (c : Char) :
    inClass [('a', 'z'), ('A', 'Z'), ('0', '9'), ('-', '-'), ('_', '_')] c = true ↔ KeyChar c := by
  simp only [inClass, KeyChar, List.any_cons, List.any_nil, Bool.or_false, Bool.or_eq_true,
    Bool.and_eq_true, decide_eq_true_eq, char_le_iff_toNat, char_eq_iff_toNat]
  have e1 : ('-' : Char).toNat = 45 := rfl
  have e2 : ('_' : Char).toNat = 95 := rfl
  have e3 : ('a' : Char).toNat = 97 := rfl
  have e4 : ('z' : Char).toNat = 122 := rfl
  have e5 : ('A' : Char).toNat = 65 := rfl
  have e6 : ('Z' : Char).toNat = 90 := rfl
  have e7 : ('0' : Char).toNat = 48 := rfl
  have e8 : ('9' : Char).toNat = 57 := rfl
  simp only [e1, e2, e3, e4, e5, e6, e7, e8]
  omega

theorem matchPlus_endText_iff (r : List (Char × Char)) (s : List Char) :
    matchPlus r (fun t => matchHere [Node.endText] false t) s = true ↔
      s ≠ [] ∧ ∀ c ∈ s, inClass r c = true := by
  induction s with
  | nil => simp [matchPlus]
  | cons c cs ih =>
    cases cs with
    | nil => simp [matchPlus, matchHere]
    | cons d ds =>
      rw [matchPlus, Bool.and_eq_true, Bool.or_eq_true, ih]
      simp [matchHere]

theorem matchHere_beginText_false (rest : List Node) (s : List Char) :
    matchHere (Node.beginText :: rest) false s = false := by
  simp [matchHere]

theorem matchAnywhere_beginText_false (rest : List Node) (s : List Char) :
    matchAnywhere (Node.beginText :: rest) false s = false := by
  induction s with
  | nil => simp [matchAnywhere, matchHere]
  | cons c cs ih => simp [matchAnywhere, matchHere, ih]

theorem matchAnywhere_shortPattern (s : List Char) :
    matchAnywhere shortPattern true s = true ↔ s ≠ [] ∧ ∀ c ∈ s, KeyChar c := by
  have key := matchPlus_endText_iff
    [('a', 'z'), ('A', 'Z'), ('0', '9'), ('-', '-'), ('_', '_')] s
  simp only [inClass_short_iff] at key
  cases s with
  | nil => simp [matchAnywhere, shortPattern, matchHere, matchPlus]
  | cons c cs =>
    rw [← key]
    simp [matchAnywhere, shortPattern, matchAnywhere_beginText_false, matchHere]

theorem string_toList_ne_nil (s : String) : s.toList ≠ [] ↔ s ≠ "" := by
  constructor
  · intro h e; subst e; exact h rfl
  · intro h e
    apply h
    cases s with
    | mk l => simp [String.toList] at e; subst e; rfl

theorem invalidShort_false_iff (s : String) (c : Context) :
    (invalidShort s c).1 = false ↔ ValidShortKey s := by
  unfold ValidShortKey
  rw [← string_toList_ne_nil, ← matchAnywhere_shortPattern]
  unfold invalidShort MatchString
  cases h : matchAnywhere shortPattern true s.toList <;> simp

theorem invalidShort_true_iff (s : String) (c : Context) :
    (invalidShort s c).1 = true ↔ ¬ ValidShortKey s := by
  rw [← invalidShort_false_iff s c]
  cases (invalidShort s c).1 <;> simp

/-- C1: `invalidShort` returns false exactly on the short keys of the key-syntax
rule (non-empty, every character one of A-Z, a-z, 0-9, `-`, `_`); the empty string
and every string containing a space, `.`, `/`, `+`, `?` or `ä` is rejected. -/
theorem C1_invalidShort_accepts_exactly_valid_keys (s : String) (c : Context) :
    ((invalidShort s c).1 = false ↔ ValidShortKey s) ∧
    (invalidShort "" c).1 = true ∧
    (∀ x ∈ [' ', '.', '/', '+', '?', 'ä'], x ∈ s.toList → (invalidShort s c).1 = true) := by
  refine ⟨invalidShort_false_iff s c, ?_, ?_⟩
  · rw [invalidShort_true_iff]
    intro h
    exact h.1 rfl
  · intro x hx hmem
    rw [invalidShort_true_iff]
    intro h
    have hk := h.2 x hmem
    simp only [List.mem_cons, List.mem_singleton, List.not_mem_nil, or_false] at hx
    rcases hx with rfl | rfl | rfl | rfl | rfl | rfl <;>
      revert hk <;> unfold KeyChar <;> decide

theorem invalidShort_of_not_valid {s : String} (h : ¬ ValidShortKey s) (c : Context) :
    invalidShort s c =
      (true, c ++ [Write.JSON StatusBadRequest (Payload.error "invalid short does not match ^[a-zA-Z0-9\\-_]+$")]) := by
  have h1 := (invalidShort_true_iff s c).mpr h
  unfold invalidShort MatchString at h1 ⊢
  generalize matchAnywhere shortPattern true s.toList = m at h1 ⊢
  cases m <;> simp at h1 ⊢

theorem invalidShort_of_valid {s : String} (h : ValidShortKey s) (c : Context) :
    invalidShort s c = (false, c) := by
  have h1 := (invalidShort_false_iff s c).mpr h
  unfold invalidShort MatchString at h1 ⊢
  generalize matchAnywhere shortPattern true s.toList = m at h1 ⊢
  cases m <;> simp at h1 ⊢

theorem invalidURL_of_fails {env : Env} {l : String} (h : URLRuleFails env l) (c : Context) :
    invalidURL env l c =
      (true, c ++ [Write.JSON StatusBadRequest (Payload.error "invalid redirect url")]) := by
  unfold URLRuleFails at h
  unfold invalidURL
  cases hp : env.ParseRequestURI l with
  | error e => rfl
  | ok u =>
    rw [hp] at h
    have : (u.Scheme == "" || u.Host == "") = true := by
      rcases h with h | h <;> simp [h]
    simp [this]

theorem invalidURL_of_passes {env : Env} {l : String} (h : ¬ URLRuleFails env l) (c : Context) :
    invalidURL env l c = (false, c) := by
  unfold URLRuleFails at h
  unfold invalidURL
  cases hp : env.ParseRequestURI l with
  | error e => rw [hp] at h; exact absurd trivial h
  | ok u =>
    rw [hp] at h
    have : (u.Scheme == "" || u.Host == "") = false := by
      rw [Bool.eq_false_iff]
      intro ht
      apply h
      simpa using ht
    simp [this]

theorem serve_short_failure (env : Env) (w : World) (r : Request) :
    (∃ s ∈ r.shorts, ¬ ValidShortKey s) →
      serve env r w =
        ([Write.JSON 400 (Payload.error "invalid short does not match ^[a-zA-Z0-9\\-_]+$")], w) := by
  rintro ⟨s, hs, hbad⟩
  cases r with
  | redirect short =>
    simp only [Request.shorts, List.mem_singleton] at hs; subst hs
    simp [serve, handleRedirect, invalidShort_of_not_valid hbad]
  | getShortlinks => simp [Request.shorts] at hs
  | getShortlink short =>
    simp only [Request.shorts, List.mem_singleton] at hs; subst hs
    simp [serve, handleGetShortlink, invalidShort_of_not_valid hbad]
  | deleteShortlink short =>
    simp only [Request.shorts, List.mem_singleton] at hs; subst hs
    simp [serve, handleDeleteShortlink, invalidShort_of_not_valid hbad]
  | check short =>
    simp only [Request.shorts, List.mem_singleton] at hs; subst hs
    simp [serve, handleCheck, invalidShort_of_not_valid hbad]
  | createShortlink body =>
    cases body with
    | error e => simp [Request.shorts] at hs
    | ok b =>
      simp only [Request.shorts, List.mem_singleton] at hs; subst hs
      simp [serve, handleCreateShortlink, bindShortlink, invalidShort_of_not_valid hbad]
  | updateShortlink short body =>
    by_cases hp : ValidShortKey short
    · cases body with
      | error e =>
        simp only [Request.shorts, List.mem_singleton] at hs; subst hs
        exact absurd hp hbad
      | ok b =>
        simp only [Request.shorts, List.mem_cons, List.mem_singleton, List.not_mem_nil,
          or_false] at hs
        rcases hs with rfl | rfl
        · exact absurd hp hbad
        · simp [serve, handleUpdateShortlink, bindShortlinkUpdate, invalidShort_of_valid hp,
            invalidShort_of_not_valid hbad]
    · simp [serve, handleUpdateShortlink, invalidShort_of_not_valid hp]

theorem serve_url_failure (env : Env) (w : World) (r : Request) :
    (∀ s ∈ r.shorts, ValidShortKey s) → (∃ l, r.long = some l ∧ URLRuleFails env l) →
      serve env r w = ([Write.JSON 400 (Payload.error "invalid redirect url")], w) := by
  rintro hs ⟨l, hl, hbad⟩
  cases r with
  | createShortlink body =>
    cases body with
    | error e => simp [Request.long] at hl
    | ok b =>
      simp only [Request.long, Option.some.injEq] at hl; subst hl
      have h1 : ValidShortKey b.short := hs _ (by simp [Request.shorts])
      simp [serve, handleCreateShortlink, bindShortlink, invalidShort_of_valid h1,
        invalidURL_of_fails hbad]
  | updateShortlink short body =>
    cases body with
    | error e => simp [Request.long] at hl
    | ok b =>
      simp only [Request.long, Option.some.injEq] at hl; subst hl
      have h0 : ValidShortKey short := hs _ (by simp [Request.shorts])
      have h1 : ValidShortKey b.short := hs _ (by simp [Request.shorts])
      simp [serve, handleUpdateShortlink, bindShortlinkUpdate, invalidShort_of_valid h0,
        invalidShort_of_valid h1, invalidURL_of_fails hbad]
  | _ => simp [Request.long] at hl

theorem serve_create_unbound (env : Env) (w : World) (err : String) :
    serve env (Request.createShortlink (Except.error err)) w =
      ([Write.JSON 400 (Payload.error err)], w) := by
  simp [serve, handleCreateShortlink, bindShortlink]

theorem serve_update_unbound (env : Env) (w : World) (a err : String) (ha : ValidShortKey a) :
    serve env (Request.updateShortlink a (Except.error err)) w =
      ([Write.JSON 400 (Payload.error err)], w) := by
  simp [serve, handleUpdateShortlink, bindShortlinkUpdate, invalidShort_of_valid ha]

/-- C2: a request whose short key (path parameter or payload short) fails the
key-syntax rule is answered with the single write 400 and the short error body; a
request with valid shorts whose payload long fails the URL rule is answered with
the single write 400 and the URL error body; in both cases the world is returned
as it was, so no collection call is logged, the collection is unchanged and a
check of any key answers as before. -/
theorem C2_validation_runs_before_any_store_call (env : Env) (w : World) (r : Request) :
    ((∃ s ∈ r.shorts, ¬ ValidShortKey s) →
      serve env r w =
        ([Write.JSON 400 (Payload.error "invalid short does not match ^[a-zA-Z0-9\\-_]+$")], w)) ∧
    ((∀ s ∈ r.shorts, ValidShortKey s) → (∃ l, r.long = some l ∧ URLRuleFails env l) →
      serve env r w = ([Write.JSON 400 (Payload.error "invalid redirect url")], w)) ∧
    (((∃ s ∈ r.shorts, ¬ ValidShortKey s) ∨ (∃ l, r.long = some l ∧ URLRuleFails env l)) →
      (serve env r w).2.calls = w.calls ∧ (serve env r w).2.coll = w.coll ∧
      ∀ k, (serve env (Request.check k) (serve env r w).2).1 =
        (serve env (Request.check k) w).1) := by
  have hshort := serve_short_failure env w r
  have hurl := serve_url_failure env w r
  refine ⟨hshort, hurl, ?_⟩
  intro h
  have hw : (serve env r w).2 = w := by
    by_cases hs : ∃ s ∈ r.shorts, ¬ ValidShortKey s
    · rw [hshort hs]
    · rcases h with h | h
      · exact absurd h hs
      · have hall : ∀ s ∈ r.shorts, ValidShortKey s := by
          intro s hmem
          by_contra hc
          exact hs ⟨s, hmem, hc⟩
        rw [hurl hall h]
  rw [hw]
  exact ⟨rfl, rfl, fun _ => rfl⟩

/-- C2 at concrete requests: a get with the short `some.thing`, and an update of
`ex` whose payload long is `some thing illegal`. -/
theorem C2_validation_witness :
    serve sampleEnv (Request.getShortlink "some.thing") World.init =
      ([Write.JSON 400 (Payload.error "invalid short does not match ^[a-zA-Z0-9\\-_]+$")],
        World.init) ∧
    serve sampleEnv
        (Request.updateShortlink "ex" (Except.ok { exampleBody with long := "some thing illegal" }))
        World.init =
      ([Write.JSON 400 (Payload.error "invalid redirect url")], World.init) :=
  ⟨(C2_validation_runs_before_any_store_call sampleEnv World.init
      (Request.getShortlink "some.thing")).1
      ⟨"some.thing", by simp [Request.shorts], by
        rw [← invalidShort_true_iff _ []]; decide⟩,
   (C2_validation_runs_before_any_store_call sampleEnv World.init
      (Request.updateShortlink "ex"
        (Except.ok { exampleBody with long := "some thing illegal" }))).2.1
      (by
        intro s hs
        simp only [Request.shorts, exampleBody, List.mem_cons, List.mem_singleton,
          List.not_mem_nil, or_false, or_self] at hs
        subst hs
        rw [← invalidShort_false_iff _ []]; decide)
      ⟨"some thing illegal", rfl, by
        have hp : sampleEnv.ParseRequestURI "some thing illegal" =
            Except.error "invalid character in host name" := by rfl
        simp only [URLRuleFails, hp]⟩⟩

/-! ### The collection -/

theorem hasShort_iff (s : String) (l : List Shortlink) :
    hasShort s l = true ↔ ∃ d ∈ l, d.ShortUrl = s := by
  simp [hasShort]

theorem hasShort_false_iff (s : String) (l : List Shortlink) :
    hasShort s l = false ↔ ∀ d ∈ l, d.ShortUrl ≠ s := by
  rw [← Bool.not_eq_true, hasShort_iff]
  simp

theorem findFirst_eq_none_iff (s : String) (l : List Shortlink) :
    findFirst s l = none ↔ ∀ d ∈ l, d.ShortUrl ≠ s := by
  induction l with
  | nil => simp [findFirst]
  | cons d ds ih =>
    by_cases h : d.ShortUrl = s
    · simp [findFirst, h]
    · cases hf : findFirst s ds with
      | none => simpa [findFirst, h, hf] using ih.mp hf
      | some t =>
        obtain ⟨pre, e, post⟩ := t
        have : ¬ ∀ x ∈ ds, x.ShortUrl ≠ s := fun hc => by
          rw [ih.mpr hc] at hf; exact Option.noConfusion hf
        simp only [findFirst, h, hf, if_false, List.mem_cons, forall_eq_or_imp]
        constructor
        · intro hc; exact Option.noConfusion hc
        · intro hc; exact absurd hc.2 this

theorem findFirst_eq_some {s : String} {l pre post : List Shortlink} {d : Shortlink}
    (h : findFirst s l = some (pre, d, post)) :
    l = pre ++ d :: post ∧ d.ShortUrl = s ∧ ∀ x ∈ pre, x.ShortUrl ≠ s := by
  induction l generalizing pre with
  | nil => simp [findFirst] at h
  | cons a as ih =>
    by_cases ha : a.ShortUrl = s
    · simp only [findFirst, ha, if_true, Option.some.injEq, Prod.mk.injEq] at h
      obtain ⟨rfl, rfl, rfl⟩ := h
      simp [ha]
    · cases hf : findFirst s as with
      | none => simp [findFirst, ha, hf] at h
      | some t =>
        obtain ⟨pre1, e, post1⟩ := t
        simp only [findFirst, ha, hf, if_false, Option.some.injEq, Prod.mk.injEq] at h
        obtain ⟨rfl, rfl, rfl⟩ := h
        obtain ⟨h1, h2, h3⟩ := ih hf
        refine ⟨by rw [h1]; rfl, h2, ?_⟩
        intro x hx
        rcases List.mem_cons.mp hx with rfl | hx
        · exact ha
        · exact h3 x hx

theorem findFirst_split (pre post : List Shortlink) (d : Shortlink) (s : String)
    (hd : d.ShortUrl = s) (h : ∀ x ∈ pre, x.ShortUrl ≠ s) :
    findFirst s (pre ++ d :: post) = some (pre, d, post) := by
  induction pre with
  | nil => simp [findFirst, hd]
  | cons a as ih =>
    have ha : a.ShortUrl ≠ s := h a (List.mem_cons_self _ _)
    have := ih (fun x hx => h x (List.mem_cons_of_mem _ hx))
    simp [findFirst, ha, this]

theorem unique_split {pre post : List Shortlink} {d : Shortlink}
    (h : UniqueShorts (pre ++ d :: post)) : ∀ x ∈ pre ++ post, x.ShortUrl ≠ d.ShortUrl := by
  unfold UniqueShorts at h
  rw [List.map_append, List.map_cons] at h
  have h1 := List.nodup_middle.mp h
  rw [List.nodup_cons, ← List.map_append] at h1
  intro x hx heq
  apply h1.1
  rw [← heq]
  exact List.mem_map_of_mem _ hx

theorem unique_replace {pre post : List Shortlink} {d e : Shortlink}
    (h : UniqueShorts (pre ++ d :: post)) (he : ∀ x ∈ pre ++ post, x.ShortUrl ≠ e.ShortUrl) :
    UniqueShorts (pre ++ e :: post) := by
  unfold UniqueShorts at h ⊢
  rw [List.map_append, List.map_cons] at h ⊢
  have h1 := List.nodup_middle.mp h
  rw [List.nodup_cons, ← List.map_append] at h1
  apply List.nodup_middle.mpr
  rw [List.nodup_cons, ← List.map_append]
  refine ⟨?_, h1.2⟩
  intro hmem
  obtain ⟨x, hx, hxe⟩ := List.mem_map.mp hmem
  exact he x hx hxe

theorem unique_findFirst {pre post : List Shortlink} {d : Shortlink}
    (h : UniqueShorts (pre ++ d :: post)) :
    findFirst d.ShortUrl (pre ++ d :: post) = some (pre, d, post) :=
  findFirst_split _ _ _ _ rfl fun x hx => unique_split h x (List.mem_append_left _ hx)

theorem unique_append {coll : List Shortlink} {d : Shortlink}
    (h : UniqueShorts coll) (hd : ∀ x ∈ coll, x.ShortUrl ≠ d.ShortUrl) :
    UniqueShorts (coll ++ [d]) := by
  unfold UniqueShorts at h ⊢
  rw [List.map_append, List.map_cons, List.map_nil]
  apply List.Nodup.append h (List.nodup_singleton _)
  intro a ha hb
  rw [List.mem_singleton] at hb
  obtain ⟨x, hx, hxe⟩ := List.mem_map.mp ha
  exact hd x hx (hxe.trans hb)

theorem unique_filter {coll : List Shortlink} (p : Shortlink → Bool)
    (h : UniqueShorts coll) : UniqueShorts (coll.filter p) := by
  unfold UniqueShorts at h ⊢
  exact List.Nodup.sublist (List.Sublist.map _ (List.filter_sublist _)) h

/-! ### The handlers on valid input -/

theorem serve_create_valid (env : Env) (w : World) (b : JSONBody)
    (hs : ValidShortKey b.short) (hu : ¬ URLRuleFails env b.long) :
    serve env (Request.createShortlink (Except.ok b)) w =
      if hasShort b.short w.coll = true then
        ([Write.JSON 409 (Payload.error "shortlink already exists")],
          ⟨w.coll, w.clockReads + 2, w.idsDrawn + 1, w.calls ++ [StoreCall.InsertOne]⟩)
      else
        ([Write.Status 201],
          ⟨w.coll ++ [⟨env.objectID w.idsDrawn, b.short, b.long, b.descr, b.access_count,
              env.clock w.clockReads, env.clock (w.clockReads + 1)⟩],
            w.clockReads + 2, w.idsDrawn + 1, w.calls ++ [StoreCall.InsertOne]⟩) := by
  simp only [serve, handleCreateShortlink, bindShortlink, invalidShort_of_valid hs,
    invalidURL_of_passes hu, Create, NewObjectID, Now, World.call, collInsertOne]
  by_cases h : hasShort b.short w.coll = true
  · simp [h, isDuplicateError]
  · simp [h]

theorem serve_get_valid (env : Env) (w : World) (s : String) (hs : ValidShortKey s) :
    serve env (Request.getShortlink s) w =
      (match findFirst s w.coll with
        | none => [Write.JSON 404 (Payload.error "shortlink not found")]
        | some (_, d, _) => [Write.JSON 200 (Payload.shortlink d)],
       ⟨w.coll, w.clockReads, w.idsDrawn, w.calls ++ [StoreCall.FindOne]⟩) := by
  simp only [serve, handleGetShortlink, invalidShort_of_valid hs, GetShortlinkByShort,
    World.call, collFindOne]
  cases h : findFirst s w.coll with
  | none => simp [isNotFundError]
  | some t => obtain ⟨pre, d, post⟩ := t; simp

theorem serve_update_valid (env : Env) (w : World) (a : String) (b : JSONBody)
    (ha : ValidShortKey a) (hs : ValidShortKey b.short) (hu : ¬ URLRuleFails env b.long) :
    serve env (Request.updateShortlink a (Except.ok b)) w =
      match collFindOneAndUpdate w.coll a
          (setUpdate ⟨b.short, b.long, b.descr, env.clock w.clockReads⟩) with
      | Except.error StoreError.ErrNoDocuments =>
        ([Write.JSON 404 (Payload.error "shortlink not found")],
          ⟨w.coll, w.clockReads + 1, w.idsDrawn, w.calls ++ [StoreCall.FindOneAndUpdate]⟩)
      | Except.error StoreError.DuplicateKey =>
        ([Write.JSON 409 (Payload.error "shortlink already exists")],
          ⟨w.coll, w.clockReads + 1, w.idsDrawn, w.calls ++ [StoreCall.FindOneAndUpdate]⟩)
      | Except.error (StoreError.Other msg) =>
        ([Write.JSON 500 (Payload.error msg)],
          ⟨w.coll, w.clockReads + 1, w.idsDrawn, w.calls ++ [StoreCall.FindOneAndUpdate]⟩)
      | Except.ok (saved, coll) =>
        ([Write.JSON 200 (Payload.shortlink saved)],
          ⟨coll, w.clockReads + 1, w.idsDrawn, w.calls ++ [StoreCall.FindOneAndUpdate]⟩) := by
  simp only [serve, handleUpdateShortlink, bindShortlinkUpdate, invalidShort_of_valid ha,
    invalidShort_of_valid hs, invalidURL_of_passes hu, Update, Now, World.call]
  cases h : collFindOneAndUpdate w.coll a
      (setUpdate ⟨b.short, b.long, b.descr, env.clock w.clockReads⟩) with
  | error e => cases e <;> simp [isDuplicateError, isNotFundError, StoreError.Error]
  | ok t => obtain ⟨saved, coll⟩ := t; simp

theorem serve_redirect_valid (env : Env) (w : World) (s : String) (hs : ValidShortKey s) :
    serve env (Request.redirect s) w =
      match collFindOneAndUpdate w.coll s incAccessCount with
      | Except.error StoreError.ErrNoDocuments =>
        ([Write.JSON 404 (Payload.error ("no redirect for " ++ s))],
          ⟨w.coll, w.clockReads, w.idsDrawn, w.calls ++ [StoreCall.FindOneAndUpdate]⟩)
      | Except.error e =>
        ([Write.JSON 500 (Payload.error e.Error)],
          ⟨w.coll, w.clockReads, w.idsDrawn, w.calls ++ [StoreCall.FindOneAndUpdate]⟩)
      | Except.ok (result, coll) =>
        ([Write.Redirect 307 result.LongUrl],
          ⟨coll, w.clockReads, w.idsDrawn, w.calls ++ [StoreCall.FindOneAndUpdate]⟩) := by
  simp only [serve, handleRedirect, invalidShort_of_valid hs, GetRedirect, World.call]
  cases h : collFindOneAndUpdate w.coll s incAccessCount with
  | error e => cases e <;> simp [isNotFundError]
  | ok t => obtain ⟨result, coll⟩ := t; simp

theorem serve_delete_valid (env : Env) (w : World) (s : String) (hs : ValidShortKey s) :
    serve env (Request.deleteShortlink s) w =
      ([Write.JSON 200 (Payload.deleted (collDeleteMany w.coll s).1)],
        ⟨(collDeleteMany w.coll s).2, w.clockReads, w.idsDrawn,
          w.calls ++ [StoreCall.DeleteMany]⟩) := by
  simp only [serve, handleDeleteShortlink, invalidShort_of_valid hs, Delete, World.call]
  rfl

theorem serve_check_valid (env : Env) (w : World) (s : String) (hs : ValidShortKey s) :
    serve env (Request.check s) w =
      ([Write.JSON 200 (Payload.free (findFirst s w.coll).isNone)],
        ⟨w.coll, w.clockReads, w.idsDrawn, w.calls ++ [StoreCall.FindOne]⟩) := by
  simp only [serve, handleCheck, invalidShort_of_valid hs, IsFree, World.call, collFindOne]
  cases h : findFirst s w.coll with
  | none => simp [isNotFundError]
  | some t => obtain ⟨pre, d, post⟩ := t; simp

theorem serve_getShortlinks (env : Env) (w : World) :
    serve env Request.getShortlinks w =
      ([Write.JSON 200 (Payload.shortlinks w.coll)],
        ⟨w.coll, w.clockReads, w.idsDrawn, w.calls ++ [StoreCall.Find]⟩) := by
  simp only [serve, handleGetShortlinks, GetAllShortlinks, World.call]
  rfl

/-! ### Sample inputs -/

theorem validShortKey_ex : ValidShortKey "ex" :=
  (invalidShort_false_iff "ex" []).mp (by decide)

theorem validShortKey_newurl : ValidShortKey "newurl" :=
  (invalidShort_false_iff "newurl" []).mp (by decide)

theorem urlRule_example : ¬ URLRuleFails sampleEnv "http://example.com" := by
  have hp : sampleEnv.ParseRequestURI "http://example.com" =
      Except.ok ⟨"http", "example.com"⟩ := by rfl
  simp only [URLRuleFails, hp]
  decide

/-! ### Create -/

/-- C3: a create with a valid short that is not yet in the store and a valid long
answers with the single write `Status 201` (no body), and a get of that short right
after it answers 200 with an entity whose short, long and descr are the payload's. -/
theorem C3_create_then_get_round_trip (env : Env) (w : World) (b : JSONBody)
    (hs : ValidShortKey b.short) (hu : ¬ URLRuleFails env b.long)
    (hfree : ∀ d ∈ w.coll, d.ShortUrl ≠ b.short) :
    (serve env (Request.createShortlink (Except.ok b)) w).1 = [Write.Status 201] ∧
    ∃ e, (serve env (Request.getShortlink b.short)
          (serve env (Request.createShortlink (Except.ok b)) w).2).1 =
        [Write.JSON 200 (Payload.shortlink e)] ∧
      e.ShortUrl = b.short ∧ e.LongUrl = b.long ∧ e.Description = b.descr := by
  have hno : ¬ hasShort b.short w.coll = true := by
    rw [Bool.not_eq_true, hasShort_false_iff]; exact hfree
  rw [serve_create_valid env w b hs hu, if_neg hno]
  refine ⟨rfl, ⟨env.objectID w.idsDrawn, b.short, b.long, b.descr, b.access_count,
    env.clock w.clockReads, env.clock (w.clockReads + 1)⟩, ?_, rfl, rfl, rfl⟩
  rw [serve_get_valid env _ b.short hs]
  have hfind := findFirst_split w.coll []
    ⟨env.objectID w.idsDrawn, b.short, b.long, b.descr, b.access_count,
      env.clock w.clockReads, env.clock (w.clockReads + 1)⟩ b.short rfl hfree
  simp only [hfind]

/-- C3 at the example shortlink on the empty store. -/
theorem C3_round_trip_witness :
    (serve sampleEnv (Request.createShortlink (Except.ok exampleBody)) World.init).1 =
      [Write.Status 201] ∧
    ∃ e, (serve sampleEnv (Request.getShortlink "ex")
          (serve sampleEnv (Request.createShortlink (Except.ok exampleBody)) World.init).2).1 =
        [Write.JSON 200 (Payload.shortlink e)] ∧
      e.ShortUrl = "ex" ∧ e.LongUrl = "http://example.com" ∧ e.Description = "Example item" :=
  C3_create_then_get_round_trip sampleEnv World.init exampleBody validShortKey_ex
    urlRule_example (by intro d hd; simp [World.init] at hd)

/-- C4, evaluated at a body that carries `access_count` 5 (sent to the empty store):
the create answers 201, and the stored entity, as the following get reports it, has
`access_count` 5 and not 0, while its id and timestamps are those of the store. -/
theorem C4_create_stores_request_access_count :
    serve sampleEnv (Request.createShortlink (Except.ok ⟨"ex", "http://example.com", "", 5, 7, 7⟩))
        World.init =
      ([Write.Status 201],
        ⟨[⟨1, "ex", "http://example.com", "", 5, 1000, 1001⟩], 2, 1, [StoreCall.InsertOne]⟩) ∧
    (serve sampleEnv (Request.getShortlink "ex")
        (serve sampleEnv
          (Request.createShortlink (Except.ok ⟨"ex", "http://example.com", "", 5, 7, 7⟩))
          World.init).2).1 =
      [Write.JSON 200 (Payload.shortlink ⟨1, "ex", "http://example.com", "", 5, 1000, 1001⟩)] := by
  constructor <;> decide

/-- C5: a valid create whose short is already in the store answers 409 with the
body "shortlink already exists" and leaves the collection as it was; from a store
without the short, creating the same valid payload twice answers 201, then 409
with the collection left as the first create made it. -/
theorem C5_duplicate_create_fails_atomically (env : Env) (w : World) (b : JSONBody)
    (hs : ValidShortKey b.short) (hu : ¬ URLRuleFails env b.long) :
    ((∃ d ∈ w.coll, d.ShortUrl = b.short) →
      (serve env (Request.createShortlink (Except.ok b)) w).1 =
        [Write.JSON 409 (Payload.error "shortlink already exists")] ∧
      (serve env (Request.createShortlink (Except.ok b)) w).2.coll = w.coll) ∧
    ((∀ d ∈ w.coll, d.ShortUrl ≠ b.short) →
      (serve env (Request.createShortlink (Except.ok b)) w).1 = [Write.Status 201] ∧
      (serve env (Request.createShortlink (Except.ok b))
          (serve env (Request.createShortlink (Except.ok b)) w).2).1 =
        [Write.JSON 409 (Payload.error "shortlink already exists")] ∧
      (serve env (Request.createShortlink (Except.ok b))
          (serve env (Request.createShortlink (Except.ok b)) w).2).2.coll =
        (serve env (Request.createShortlink (Except.ok b)) w).2.coll) := by
  have hdup : ∀ v : World, (∃ d ∈ v.coll, d.ShortUrl = b.short) →
      (serve env (Request.createShortlink (Except.ok b)) v).1 =
        [Write.JSON 409 (Payload.error "shortlink already exists")] ∧
      (serve env (Request.createShortlink (Except.ok b)) v).2.coll = v.coll := by
    intro v hv
    have hyes : hasShort b.short v.coll = true := (hasShort_iff _ _).mpr hv
    rw [serve_create_valid env v b hs hu, if_pos hyes]
    exact ⟨rfl, rfl⟩
  refine ⟨hdup w, ?_⟩
  intro hfree
  have hno : ¬ hasShort b.short w.coll = true := by
    rw [Bool.not_eq_true, hasShort_false_iff]; exact hfree
  have h1 : serve env (Request.createShortlink (Except.ok b)) w =
      ([Write.Status 201],
        ⟨w.coll ++ [⟨env.objectID w.idsDrawn, b.short, b.long, b.descr, b.access_count,
            env.clock w.clockReads, env.clock (w.clockReads + 1)⟩],
          w.clockReads + 2, w.idsDrawn + 1, w.calls ++ [StoreCall.InsertOne]⟩) := by
    rw [serve_create_valid env w b hs hu, if_neg hno]
  rw [h1]
  refine ⟨rfl, ?_⟩
  apply hdup
  exact ⟨_, List.mem_append_right _ (List.mem_singleton_self _), rfl⟩

/-- C5 at the example shortlink: created twice on the empty store. -/
theorem C5_duplicate_create_witness :
    (serve sampleEnv (Request.createShortlink (Except.ok exampleBody)) World.init).1 =
      [Write.Status 201] ∧
    (serve sampleEnv (Request.createShortlink (Except.ok exampleBody))
        (serve sampleEnv (Request.createShortlink (Except.ok exampleBody)) World.init).2).1 =
      [Write.JSON 409 (Payload.error "shortlink already exists")] ∧
    (serve sampleEnv (Request.createShortlink (Except.ok exampleBody))
        (serve sampleEnv (Request.createShortlink (Except.ok exampleBody)) World.init).2).2.coll =
      (serve sampleEnv (Request.createShortlink (Except.ok exampleBody)) World.init).2.coll :=
  (C5_duplicate_create_fails_atomically sampleEnv World.init exampleBody validShortKey_ex
    urlRule_example).2 (by intro d hd; simp [World.init] at hd)

/-! ### Find-and-update -/

theorem unique_mem_eq {l : List Shortlink} (h : UniqueShorts l) {x y : Shortlink}
    (hx : x ∈ l) (hy : y ∈ l) (hxy : x.ShortUrl = y.ShortUrl) : x = y :=
  List.inj_on_of_nodup_map h hx hy hxy

theorem unique_mem_findFirst {l : List Shortlink} (h : UniqueShorts l) {e : Shortlink}
    (he : e ∈ l) : ∃ pre post, l = pre ++ e :: post ∧
      findFirst e.ShortUrl l = some (pre, e, post) := by
  obtain ⟨pre, post, hl⟩ := List.append_of_mem he
  subst hl
  exact ⟨pre, post, rfl, unique_findFirst h⟩

theorem findOneAndUpdate_none {coll : List Shortlink} {s : String}
    (update : Shortlink → Except StoreError Shortlink) (h : findFirst s coll = none) :
    collFindOneAndUpdate coll s update = Except.error StoreError.ErrNoDocuments := by
  simp [collFindOneAndUpdate, h]

theorem findOneAndUpdate_inc {coll pre post : List Shortlink} {e : Shortlink} {s : String}
    (h : findFirst s coll = some (pre, e, post)) (hc : e.AccessCount < maxInt64) :
    collFindOneAndUpdate coll s incAccessCount =
      Except.ok ({ e with AccessCount := e.AccessCount + 1 },
        pre ++ { e with AccessCount := e.AccessCount + 1 } :: post) := by
  simp [collFindOneAndUpdate, h, incAccessCount, hc]

theorem findOneAndUpdate_inc_refused {coll pre post : List Shortlink} {e : Shortlink}
    {s : String} (h : findFirst s coll = some (pre, e, post)) (hc : ¬ e.AccessCount < maxInt64) :
    collFindOneAndUpdate coll s incAccessCount =
      Except.error (StoreError.Other "Failed to apply $inc operations to current value") := by
  simp [collFindOneAndUpdate, h, incAccessCount, hc]

theorem findOneAndUpdate_set {coll pre post : List Shortlink} {e : Shortlink} {s : String}
    (u : ShortlinkUpdate) (h : findFirst s coll = some (pre, e, post))
    (hfree : u.ShortUrl = e.ShortUrl ∨ ∀ d ∈ pre ++ post, d.ShortUrl ≠ u.ShortUrl) :
    collFindOneAndUpdate coll s (setUpdate u) =
      Except.ok (setFields u e, pre ++ setFields u e :: post) := by
  have hg : ¬ ((setFields u e).ShortUrl ≠ e.ShortUrl ∧
      hasShort (setFields u e).ShortUrl (pre ++ post) = true) := by
    rintro ⟨h1, h2⟩
    rcases hfree with hf | hf
    · exact h1 hf
    · rw [hasShort_iff] at h2
      obtain ⟨d, hd, hde⟩ := h2
      exact hf d hd hde
  simp only [collFindOneAndUpdate, h, setUpdate, if_neg hg]

theorem findOneAndUpdate_set_duplicate {coll pre post : List Shortlink} {e : Shortlink}
    {s : String} (u : ShortlinkUpdate) (h : findFirst s coll = some (pre, e, post))
    (hne : u.ShortUrl ≠ e.ShortUrl) (hdup : ∃ d ∈ pre ++ post, d.ShortUrl = u.ShortUrl) :
    collFindOneAndUpdate coll s (setUpdate u) = Except.error StoreError.DuplicateKey := by
  have hg : (setFields u e).ShortUrl ≠ e.ShortUrl ∧
      hasShort (setFields u e).ShortUrl (pre ++ post) = true :=
    ⟨hne, (hasShort_iff _ _).mpr hdup⟩
  simp only [collFindOneAndUpdate, h, setUpdate, if_pos hg]

theorem findOneAndUpdate_set_cases (coll : List Shortlink) (s : String) (u : ShortlinkUpdate) :
    (findFirst s coll = none ∧
      collFindOneAndUpdate coll s (setUpdate u) = Except.error StoreError.ErrNoDocuments) ∨
    (∃ pre e post, findFirst s coll = some (pre, e, post) ∧ u.ShortUrl ≠ e.ShortUrl ∧
      (∃ d ∈ pre ++ post, d.ShortUrl = u.ShortUrl) ∧
      collFindOneAndUpdate coll s (setUpdate u) = Except.error StoreError.DuplicateKey) ∨
    (∃ pre e post, findFirst s coll = some (pre, e, post) ∧
      (u.ShortUrl = e.ShortUrl ∨ ∀ d ∈ pre ++ post, d.ShortUrl ≠ u.ShortUrl) ∧
      collFindOneAndUpdate coll s (setUpdate u) =
        Except.ok (setFields u e, pre ++ setFields u e :: post)) := by
  cases hf : findFirst s coll with
  | none => exact Or.inl ⟨rfl, findOneAndUpdate_none _ hf⟩
  | some t =>
    obtain ⟨pre, e, post⟩ := t
    by_cases hfree : u.ShortUrl = e.ShortUrl ∨ ∀ d ∈ pre ++ post, d.ShortUrl ≠ u.ShortUrl
    · exact Or.inr (Or.inr ⟨pre, e, post, rfl, hfree, findOneAndUpdate_set u hf hfree⟩)
    · rw [not_or] at hfree
      obtain ⟨hne, hex⟩ := hfree
      have hdup : ∃ d ∈ pre ++ post, d.ShortUrl = u.ShortUrl := by
        by_contra hc
        apply hex
        intro d hd hde
        exact hc ⟨d, hd, hde⟩
      exact Or.inr (Or.inl ⟨pre, e, post, rfl, hne, hdup,
        findOneAndUpdate_set_duplicate u hf hne hdup⟩)

/-! ### What one request does to the collection -/

theorem serve_create_cases (env : Env) (w : World) (body : Except String JSONBody) :
    (serve env (Request.createShortlink body) w).2.coll = w.coll ∨
    ∃ b, body = Except.ok b ∧ ValidShortKey b.short ∧ ¬ URLRuleFails env b.long ∧
      (∀ d ∈ w.coll, d.ShortUrl ≠ b.short) ∧
      serve env (Request.createShortlink body) w =
        ([Write.Status 201],
          ⟨w.coll ++ [⟨env.objectID w.idsDrawn, b.short, b.long, b.descr, b.access_count,
              env.clock w.clockReads, env.clock (w.clockReads + 1)⟩],
            w.clockReads + 2, w.idsDrawn + 1, w.calls ++ [StoreCall.InsertOne]⟩) := by
  cases body with
  | error err => left; rw [serve_create_unbound]
  | ok b =>
    by_cases hs : ValidShortKey b.short
    · by_cases hu : URLRuleFails env b.long
      · left
        rw [serve_url_failure env w (Request.createShortlink (Except.ok b))
          (by simpa [Request.shorts] using hs) ⟨b.long, rfl, hu⟩]
      · by_cases hd : hasShort b.short w.coll = true
        · left; rw [serve_create_valid env w b hs hu, if_pos hd]
        · right
          refine ⟨b, rfl, hs, hu, ?_, ?_⟩
          · rw [Bool.not_eq_true, hasShort_false_iff] at hd; exact hd
          · rw [serve_create_valid env w b hs hu, if_neg hd]
    · left
      rw [serve_short_failure env w _ ⟨b.short, by simp [Request.shorts], hs⟩]

theorem serve_update_cases (env : Env) (w : World) (a : String) (body : Except String JSONBody) :
    ((serve env (Request.updateShortlink a body) w).2.coll = w.coll ∧
      ∀ e, (serve env (Request.updateShortlink a body) w).1 ≠
        [Write.JSON 200 (Payload.shortlink e)]) ∨
    ∃ b pre e post, body = Except.ok b ∧ ValidShortKey a ∧ ValidShortKey b.short ∧
      ¬ URLRuleFails env b.long ∧ findFirst a w.coll = some (pre, e, post) ∧
      (b.short = e.ShortUrl ∨ ∀ d ∈ pre ++ post, d.ShortUrl ≠ b.short) ∧
      serve env (Request.updateShortlink a body) w =
        ([Write.JSON 200 (Payload.shortlink
            (setFields ⟨b.short, b.long, b.descr, env.clock w.clockReads⟩ e))],
          ⟨pre ++ setFields ⟨b.short, b.long, b.descr, env.clock w.clockReads⟩ e :: post,
            w.clockReads + 1, w.idsDrawn, w.calls ++ [StoreCall.FindOneAndUpdate]⟩) := by
  by_cases ha : ValidShortKey a
  · cases body with
    | error err =>
      left; rw [serve_update_unbound env w a err ha]
      exact ⟨rfl, fun e h => by simp at h⟩
    | ok b =>
      by_cases hs : ValidShortKey b.short
      · by_cases hu : URLRuleFails env b.long
        · left
          rw [serve_url_failure env w (Request.updateShortlink a (Except.ok b)) (by
            intro s hmem
            simp only [Request.shorts, List.mem_cons, List.mem_singleton, List.not_mem_nil,
              or_false] at hmem
            rcases hmem with rfl | rfl
            · exact ha
            · exact hs) ⟨b.long, rfl, hu⟩]
          exact ⟨rfl, fun e h => by simp at h⟩
        · rw [serve_update_valid env w a b ha hs hu]
          rcases findOneAndUpdate_set_cases w.coll a
              ⟨b.short, b.long, b.descr, env.clock w.clockReads⟩ with
            ⟨_, h⟩ | ⟨pre, e, post, _, _, _, h⟩ | ⟨pre, e, post, hf, hfree, h⟩
          · left; rw [h]; exact ⟨rfl, fun e h => by simp at h⟩
          · left; rw [h]; exact ⟨rfl, fun e h => by simp at h⟩
          · right
            refine ⟨b, pre, e, post, rfl, ha, hs, hu, hf, hfree, ?_⟩
            rw [h]
      · left
        rw [serve_short_failure env w _ ⟨b.short, by simp [Request.shorts], hs⟩]
        exact ⟨rfl, fun e h => by simp at h⟩
  · left
    have hmem : a ∈ (Request.updateShortlink a body).shorts := by
      cases body <;> simp [Request.shorts]
    rw [serve_short_failure env w _ ⟨a, hmem, ha⟩]
    exact ⟨rfl, fun e h => by simp at h⟩

theorem serve_redirect_cases (env : Env) (w : World) (s : String) :
    ((serve env (Request.redirect s) w).2.coll = w.coll ∧
      ∀ l, (serve env (Request.redirect s) w).1 ≠ [Write.Redirect 307 l]) ∨
    ∃ pre e post, ValidShortKey s ∧ findFirst s w.coll = some (pre, e, post) ∧
      serve env (Request.redirect s) w =
        ([Write.Redirect 307 e.LongUrl],
          ⟨pre ++ { e with AccessCount := e.AccessCount + 1 } :: post, w.clockReads,
            w.idsDrawn, w.calls ++ [StoreCall.FindOneAndUpdate]⟩) := by
  by_cases hs : ValidShortKey s
  · rw [serve_redirect_valid env w s hs]
    cases hf : findFirst s w.coll with
    | none =>
      left; rw [findOneAndUpdate_none _ hf]
      exact ⟨rfl, fun l h => by simp at h⟩
    | some t =>
      obtain ⟨pre, e, post⟩ := t
      by_cases hc : e.AccessCount < maxInt64
      · right
        refine ⟨pre, e, post, hs, rfl, ?_⟩
        rw [findOneAndUpdate_inc hf hc]
      · left
        rw [findOneAndUpdate_inc_refused hf hc]
        exact ⟨rfl, fun l h => by simp at h⟩
  · left
    rw [serve_short_failure env w _ ⟨s, by simp [Request.shorts], hs⟩]
    exact ⟨rfl, fun l h => by simp at h⟩

theorem serve_delete_cases (env : Env) (w : World) (s : String) :
    (serve env (Request.deleteShortlink s) w).2.coll = w.coll ∨
    (ValidShortKey s ∧ (serve env (Request.deleteShortlink s) w).2.coll =
      w.coll.filter fun d => !decide (d.ShortUrl = s)) := by
  by_cases hs : ValidShortKey s
  · right; rw [serve_delete_valid env w s hs]; exact ⟨hs, rfl⟩
  · left; rw [serve_short_failure env w _ ⟨s, by simp [Request.shorts], hs⟩]

theorem serve_get_coll (env : Env) (w : World) (s : String) :
    (serve env (Request.getShortlink s) w).2.coll = w.coll := by
  by_cases hs : ValidShortKey s
  · rw [serve_get_valid env w s hs]
  · rw [serve_short_failure env w _ ⟨s, by simp [Request.shorts], hs⟩]

theorem serve_check_coll (env : Env) (w : World) (s : String) :
    (serve env (Request.check s) w).2.coll = w.coll := by
  by_cases hs : ValidShortKey s
  · rw [serve_check_valid env w s hs]
  · rw [serve_short_failure env w _ ⟨s, by simp [Request.shorts], hs⟩]

theorem serve_preserves_unique (env : Env) (w : World) (r : Request)
    (h : UniqueShorts w.coll) : UniqueShorts (serve env r w).2.coll := by
  cases r with
  | redirect s =>
    rcases serve_redirect_cases env w s with ⟨hc, _⟩ | ⟨pre, e, post, _, hf, hserve⟩
    · rw [hc]; exact h
    · rw [hserve]
      obtain ⟨hl, _, _⟩ := findFirst_eq_some hf
      rw [hl] at h
      exact unique_replace h (fun x hx => unique_split h x hx)
  | getShortlinks => rw [serve_getShortlinks]; exact h
  | getShortlink s => rw [serve_get_coll]; exact h
  | check s => rw [serve_check_coll]; exact h
  | deleteShortlink s =>
    rcases serve_delete_cases env w s with hc | ⟨_, hc⟩
    · rw [hc]; exact h
    · rw [hc]; exact unique_filter _ h
  | createShortlink body =>
    rcases serve_create_cases env w body with hc | ⟨b, _, _, _, hfree, hserve⟩
    · rw [hc]; exact h
    · rw [hserve]; exact unique_append h hfree
  | updateShortlink a body =>
    rcases serve_update_cases env w a body with
      ⟨hc, _⟩ | ⟨b, pre, e, post, _, _, _, _, hf, hfree, hserve⟩
    · rw [hc]; exact h
    · rw [hserve]
      obtain ⟨hl, _, _⟩ := findFirst_eq_some hf
      rw [hl] at h
      apply unique_replace h
      rcases hfree with heq | hne
      · intro x hx
        have := unique_split h x hx
        simpa [setFields, heq] using this
      · exact hne

theorem run_cons (env : Env) (r : Request) (rs : List Request) (w : World) :
    run env (r :: rs) w = run env rs (serve env r w).2 := rfl

theorem run_preserves_unique (env : Env) (rs : List Request) (w : World)
    (h : UniqueShorts w.coll) : UniqueShorts (run env rs w).coll := by
  induction rs generalizing w with
  | nil => exact h
  | cons r rs ih => rw [run_cons]; exact ih _ (serve_preserves_unique env w r h)

/-! ### Uniqueness, update and redirect -/

/-- C6: in every state reached from the empty store by any sequence of requests no
two stored entities share a short, and every request keeps it so; a `Create` whose
short is already stored, and an `Update` that would give an entity the short of
another one, return the duplicate-key error and leave the collection as it was. -/
theorem C6_short_unique_in_every_reachable_state (env : Env) :
    (∀ rs : List Request, UniqueShorts (run env rs World.init).coll) ∧
    (∀ (w : World) (r : Request), UniqueShorts w.coll → UniqueShorts (serve env r w).2.coll) ∧
    (∀ (w : World) (sl : Shortlink), (∃ d ∈ w.coll, d.ShortUrl = sl.ShortUrl) →
      (Create env sl w).1 = some StoreError.DuplicateKey ∧ (Create env sl w).2.coll = w.coll) ∧
    (∀ (w : World) (a : String) (u : ShortlinkUpdate), (∃ e ∈ w.coll, e.ShortUrl = a) →
      u.ShortUrl ≠ a → (∃ d ∈ w.coll, d.ShortUrl = u.ShortUrl) →
      (Update env a u w).1 = Except.error StoreError.DuplicateKey ∧
      (Update env a u w).2.coll = w.coll) := by
  refine ⟨?_, fun w r h => serve_preserves_unique env w r h, ?_, ?_⟩
  · intro rs
    apply run_preserves_unique
    simp [UniqueShorts, World.init]
  · intro w sl hdup
    have hyes : hasShort sl.ShortUrl w.coll = true := (hasShort_iff _ _).mpr hdup
    simp [Create, NewObjectID, Now, World.call, collInsertOne, hyes]
  · intro w a u hex hne hdup
    cases hf : findFirst a w.coll with
    | none =>
      obtain ⟨e, he, hea⟩ := hex
      exact absurd hea ((findFirst_eq_none_iff a w.coll).mp hf e he)
    | some t =>
      obtain ⟨pre, e, post⟩ := t
      obtain ⟨hl, hea, _⟩ := findFirst_eq_some hf
      obtain ⟨d, hd, hdu⟩ := hdup
      have hd2 : d ∈ pre ++ post := by
        rw [hl] at hd
        simp only [List.mem_append, List.mem_cons] at hd ⊢
        rcases hd with h | rfl | h
        · exact Or.inl h
        · exact absurd (hdu.symm.trans hea) hne
        · exact Or.inr h
      have hupd := findOneAndUpdate_set_duplicate
        ⟨u.ShortUrl, u.LongUrl, u.Description, env.clock w.clockReads⟩ hf
        (by rw [hea]; exact hne) ⟨d, hd2, hdu⟩
      simp [Update, Now, World.call, hupd]

/-- C6 at the example shortlink created twice and then renamed. -/
theorem C6_unique_witness :
    UniqueShorts (run sampleEnv
      [Request.createShortlink (Except.ok exampleBody),
       Request.createShortlink (Except.ok exampleBody),
       Request.updateShortlink "ex" (Except.ok { exampleBody with short := "newurl" })]
      World.init).coll :=
  (C6_short_unique_in_every_reachable_state sampleEnv).1 _

/-- C7: in a store under its unique index that holds `e` with short `a`, a valid
update whose new short is `a` itself or unused answers 200 with `e` carrying the
payload's short, long and descr and the clock reading of the update as
`updated_at` (the payload's `updated_at` is not used), id, `access_count` and
`created_at` as before; the collection is the old one with `e` replaced by that
entity in place; a get of the new short returns exactly that entity; and after a
rename a get of `a` is 404 and a create with short `a` answers 201. -/
theorem C7_update_replaces_mutable_fields_of_one_entity (env : Env) (w : World) (a : String)
    (b : JSONBody) (pre post : List Shortlink) (e : Shortlink)
    (hU : UniqueShorts w.coll) (ha : ValidShortKey a) (hs : ValidShortKey b.short)
    (hu : ¬ URLRuleFails env b.long) (hw : w.coll = pre ++ e :: post) (he : e.ShortUrl = a)
    (hfree : b.short = a ∨ ∀ d ∈ w.coll, d.ShortUrl ≠ b.short) :
    (serve env (Request.updateShortlink a (Except.ok b)) w).1 =
      [Write.JSON 200 (Payload.shortlink
        ⟨e.ID, b.short, b.long, b.descr, e.AccessCount, e.CreatedAt, env.clock w.clockReads⟩)] ∧
    (serve env (Request.updateShortlink a (Except.ok b)) w).2.coll =
      pre ++ ⟨e.ID, b.short, b.long, b.descr, e.AccessCount, e.CreatedAt,
        env.clock w.clockReads⟩ :: post ∧
    (serve env (Request.getShortlink b.short)
        (serve env (Request.updateShortlink a (Except.ok b)) w).2).1 =
      [Write.JSON 200 (Payload.shortlink
        ⟨e.ID, b.short, b.long, b.descr, e.AccessCount, e.CreatedAt, env.clock w.clockReads⟩)] ∧
    (b.short ≠ a →
      (serve env (Request.getShortlink a)
          (serve env (Request.updateShortlink a (Except.ok b)) w).2).1 =
        [Write.JSON 404 (Payload.error "shortlink not found")] ∧
      ∀ c : JSONBody, c.short = a → ¬ URLRuleFails env c.long →
        (serve env (Request.createShortlink (Except.ok c))
          (serve env (Request.updateShortlink a (Except.ok b)) w).2).1 = [Write.Status 201]) := by
  rw [hw] at hU
  have hothers := unique_split hU
  have hf : findFirst a w.coll = some (pre, e, post) := by
    rw [hw, ← he]; exact unique_findFirst hU
  have hfree2 : b.short = e.ShortUrl ∨ ∀ d ∈ pre ++ post, d.ShortUrl ≠ b.short := by
    rcases hfree with h | h
    · exact Or.inl (h.trans he.symm)
    · right
      intro d hd
      apply h d
      rw [hw]
      simp only [List.mem_append, List.mem_cons] at hd ⊢
      tauto
  have hupd := findOneAndUpdate_set ⟨b.short, b.long, b.descr, env.clock w.clockReads⟩ hf hfree2
  have hserve := serve_update_valid env w a b ha hs hu
  rw [hupd] at hserve
  simp only [setFields] at hserve
  rw [hserve]
  have hU2 : UniqueShorts (pre ++ (⟨e.ID, b.short, b.long, b.descr, e.AccessCount, e.CreatedAt,
      env.clock w.clockReads⟩ : Shortlink) :: post) := by
    apply unique_replace hU
    rcases hfree2 with h | h
    · intro x hx; rw [h]; exact hothers x hx
    · exact h
  refine ⟨rfl, rfl, ?_, ?_⟩
  · rw [serve_get_valid env _ b.short hs]
    have := unique_findFirst hU2
    simp only [this]
  · intro hne
    have hnone : findFirst a (pre ++ (⟨e.ID, b.short, b.long, b.descr, e.AccessCount,
        e.CreatedAt, env.clock w.clockReads⟩ : Shortlink) :: post) = none := by
      rw [findFirst_eq_none_iff]
      intro d hd
      simp only [List.mem_append, List.mem_cons] at hd
      rcases hd with h | rfl | h
      · rw [← he]; exact hothers d (List.mem_append_left _ h)
      · exact hne
      · rw [← he]; exact hothers d (List.mem_append_right _ h)
    constructor
    · rw [serve_get_valid env _ a ha]
      simp only [hnone]
    · intro c hc huc
      have hcs : ValidShortKey c.short := by rw [hc]; exact ha
      rw [serve_create_valid env _ c hcs huc]
      have hno : ¬ hasShort c.short (pre ++ (⟨e.ID, b.short, b.long, b.descr, e.AccessCount,
          e.CreatedAt, env.clock w.clockReads⟩ : Shortlink) :: post) = true := by
        rw [Bool.not_eq_true, hasShort_false_iff, hc, ← findFirst_eq_none_iff]
        exact hnone
      rw [if_neg hno]

/-- C8: with a valid current short and a valid payload, an update of a short no
entity has answers 404 "shortlink not found"; an update whose new short belongs to
a different entity of a store under its unique index answers 409 "shortlink already
exists"; both leave the collection as it was; and an update whose new short is its
current short is never answered 409. -/
theorem C8_update_failures_change_nothing (env : Env) (w : World) (a : String) (b : JSONBody)
    (ha : ValidShortKey a) (hs : ValidShortKey b.short) (hu : ¬ URLRuleFails env b.long) :
    ((∀ d ∈ w.coll, d.ShortUrl ≠ a) →
      (serve env (Request.updateShortlink a (Except.ok b)) w).1 =
        [Write.JSON 404 (Payload.error "shortlink not found")] ∧
      (serve env (Request.updateShortlink a (Except.ok b)) w).2.coll = w.coll) ∧
    (UniqueShorts w.coll →
      (∃ e ∈ w.coll, e.ShortUrl = a ∧ ∃ d ∈ w.coll, d ≠ e ∧ d.ShortUrl = b.short) →
      (serve env (Request.updateShortlink a (Except.ok b)) w).1 =
        [Write.JSON 409 (Payload.error "shortlink already exists")] ∧
      (serve env (Request.updateShortlink a (Except.ok b)) w).2.coll = w.coll) ∧
    (b.short = a → ∀ p,
      (serve env (Request.updateShortlink a (Except.ok b)) w).1 ≠ [Write.JSON 409 p]) := by
  have hserve := serve_update_valid env w a b ha hs hu
  refine ⟨?_, ?_, ?_⟩
  · intro hnone
    rw [hserve, findOneAndUpdate_none _ ((findFirst_eq_none_iff a w.coll).mpr hnone)]
    exact ⟨rfl, rfl⟩
  · rintro hU ⟨e, he, hea, d, hd, hde, hdb⟩
    obtain ⟨pre, post, hl, hf⟩ := unique_mem_findFirst hU he
    rw [hea] at hf
    have hne : b.short ≠ e.ShortUrl := by
      intro h
      exact hde (unique_mem_eq hU hd he (hdb.trans h))
    have hd2 : d ∈ pre ++ post := by
      rw [hl] at hd
      simp only [List.mem_append, List.mem_cons] at hd ⊢
      rcases hd with h | h | h
      · exact Or.inl h
      · exact absurd h hde
      · exact Or.inr h
    rw [hserve, findOneAndUpdate_set_duplicate
      ⟨b.short, b.long, b.descr, env.clock w.clockReads⟩ hf hne ⟨d, hd2, hdb⟩]
    exact ⟨rfl, rfl⟩
  · intro hba p
    rw [hserve]
    rcases findOneAndUpdate_set_cases w.coll a
        ⟨b.short, b.long, b.descr, env.clock w.clockReads⟩ with
      ⟨_, h⟩ | ⟨pre, e, post, hf, hne, _, h⟩ | ⟨pre, e, post, _, _, h⟩
    · rw [h]; simp
    · exact absurd (hba.trans (findFirst_eq_some hf).2.1.symm) hne
    · rw [h]; simp

/-- C9, as corrected: with a valid short `s`, a redirect of a store under its unique
index that holds `e` with short `s` and an `access_count` below 9223372036854775807,
the largest value of the 64-bit counter, answers 307 to the stored long of `e`, and
the collection is the old one with only the `access_count` of `e` raised by one, in
place; at the largest value the store refuses the increment, the answer is 500 and
the collection is as it was; if no entity has short `s` the answer is 404
"no redirect for s" and the collection is as it was. -/
theorem C9_redirect_increments_counter_only (env : Env) (w : World) (s : String)
    (hs : ValidShortKey s) :
    (∀ (pre post : List Shortlink) (e : Shortlink), UniqueShorts w.coll →
      w.coll = pre ++ e :: post → e.ShortUrl = s → e.AccessCount < 9223372036854775807 →
      (serve env (Request.redirect s) w).1 = [Write.Redirect 307 e.LongUrl] ∧
      (serve env (Request.redirect s) w).2.coll =
        pre ++ ⟨e.ID, e.ShortUrl, e.LongUrl, e.Description, e.AccessCount + 1, e.CreatedAt,
          e.UpdatedAt⟩ :: post) ∧
    (∀ (pre post : List Shortlink) (e : Shortlink), UniqueShorts w.coll →
      w.coll = pre ++ e :: post → e.ShortUrl = s → 9223372036854775807 ≤ e.AccessCount →
      (∃ msg, (serve env (Request.redirect s) w).1 =
        [Write.JSON 500 (Payload.error msg)]) ∧
      (serve env (Request.redirect s) w).2.coll = w.coll) ∧
    ((∀ d ∈ w.coll, d.ShortUrl ≠ s) →
      (serve env (Request.redirect s) w).1 =
        [Write.JSON 404 (Payload.error ("no redirect for " ++ s))] ∧
      (serve env (Request.redirect s) w).2.coll = w.coll) := by
  have hserve := serve_redirect_valid env w s hs
  refine ⟨?_, ?_, ?_⟩
  · intro pre post e hU hw he hc
    have hf : findFirst s w.coll = some (pre, e, post) := by
      rw [hw] at hU ⊢; rw [← he]; exact unique_findFirst hU
    have hc2 : e.AccessCount < maxInt64 := hc
    rw [hserve, findOneAndUpdate_inc hf hc2]
    exact ⟨rfl, rfl⟩
  · intro pre post e hU hw he hc
    have hf : findFirst s w.coll = some (pre, e, post) := by
      rw [hw] at hU ⊢; rw [← he]; exact unique_findFirst hU
    have hc2 : ¬ e.AccessCount < maxInt64 := not_lt.mpr hc
    rw [hserve, findOneAndUpdate_inc_refused hf hc2]
    exact ⟨⟨_, rfl⟩, rfl⟩
  · intro hnone
    rw [hserve, findOneAndUpdate_none _ ((findFirst_eq_none_iff s w.coll).mpr hnone)]
    exact ⟨rfl, rfl⟩

/-- C9 as first stated fails where the counter has its largest value: one create
with `access_count` 9223372036854775807 on the empty store is answered 201, and the
redirect of the stored entity is then answered 500, not 307, with the collection
and its counter as they were. -/
theorem C9_redirect_refused_at_largest_count :
    serve sampleEnv (Request.createShortlink (Except.ok maxedBody)) World.init =
      ([Write.Status 201], maxedWorld) ∧
    ¬ ((serve sampleEnv (Request.redirect "ex") maxedWorld).1 =
        [Write.Redirect 307 "http://example.com"] ∧
      (serve sampleEnv (Request.redirect "ex") maxedWorld).2.coll =
        [⟨1, "ex", "http://example.com", "Example item", 9223372036854775807 + 1, 1000,
          1001⟩]) ∧
    (serve sampleEnv (Request.redirect "ex") maxedWorld).1 =
      [Write.JSON 500 (Payload.error "Failed to apply $inc operations to current value")] ∧
    (serve sampleEnv (Request.redirect "ex") maxedWorld).2.coll = maxedWorld.coll := by
  refine ⟨by decide, ?_, by decide, by decide⟩
  intro h
  exact absurd h.1 (by decide)

/-! ### Sample runs of update and redirect -/

theorem sampleWorld_is_created :
    (serve sampleEnv (Request.createShortlink (Except.ok exampleBody)) World.init).2 =
      sampleWorld := by
  decide

theorem sampleWorld_unique : UniqueShorts sampleWorld.coll := by
  simp [UniqueShorts, sampleWorld]

/-- C7 at the rename of the example shortlink to `newurl`. -/
theorem C7_update_witness :
    (serve sampleEnv (Request.updateShortlink "ex" (Except.ok renameBody)) sampleWorld).1 =
      [Write.JSON 200 (Payload.shortlink
        ⟨1, "newurl", "http://example.com", "Example item", 0, 1000, 1002⟩)] ∧
    (serve sampleEnv (Request.updateShortlink "ex" (Except.ok renameBody)) sampleWorld).2.coll =
      [⟨1, "newurl", "http://example.com", "Example item", 0, 1000, 1002⟩] :=
  have h := C7_update_replaces_mutable_fields_of_one_entity sampleEnv sampleWorld "ex" renameBody
    [] [] sampleDoc sampleWorld_unique validShortKey_ex validShortKey_newurl urlRule_example
    rfl rfl (Or.inr (by decide))
  ⟨h.1, h.2.1⟩

/-- C8 at an update of the example shortlink on the empty store. -/
theorem C8_update_witness :
    (serve sampleEnv (Request.updateShortlink "ex" (Except.ok exampleBody)) World.init).1 =
      [Write.JSON 404 (Payload.error "shortlink not found")] ∧
    (serve sampleEnv (Request.updateShortlink "ex" (Except.ok exampleBody)) World.init).2.coll =
      World.init.coll :=
  (C8_update_failures_change_nothing sampleEnv World.init "ex" exampleBody validShortKey_ex
    validShortKey_ex urlRule_example).1 (by intro d hd; simp [World.init] at hd)

/-- C9 at a redirect of the example shortlink. -/
theorem C9_redirect_witness :
    (serve sampleEnv (Request.redirect "ex") sampleWorld).1 =
      [Write.Redirect 307 "http://example.com"] ∧
    (serve sampleEnv (Request.redirect "ex") sampleWorld).2.coll =
      [⟨1, "ex", "http://example.com", "Example item", 1, 1000, 1001⟩] :=
  (C9_redirect_increments_counter_only sampleEnv sampleWorld "ex" validShortKey_ex).1
    [] [] sampleDoc sampleWorld_unique rfl rfl (by decide)

/-! ### Following an entity -/

theorem keyAfter_update_ok {env : Env} {key a : String} {body : Except String JSONBody}
    {w : World} {e : Shortlink}
    (h : (serve env (Request.updateShortlink a body) w).1 =
      [Write.JSON 200 (Payload.shortlink e)]) :
    keyAfter env key (Request.updateShortlink a body) w = if a = key then e.ShortUrl else key := by
  simp only [keyAfter, h]

theorem keyAfter_update_fail {env : Env} {key a : String} {body : Except String JSONBody}
    {w : World}
    (h : ∀ e, (serve env (Request.updateShortlink a body) w).1 ≠
      [Write.JSON 200 (Payload.shortlink e)]) :
    keyAfter env key (Request.updateShortlink a body) w = key := by
  unfold keyAfter
  split
  · next short _ e heq hresp =>
      cases heq
      exact absurd hresp (h e)
  · rfl

theorem keyAfter_other {env : Env} {key : String} {r : Request} {w : World}
    (h : ∀ a body, r ≠ Request.updateShortlink a body) : keyAfter env key r w = key := by
  unfold keyAfter
  split
  · next short body e _ => exact absurd rfl (h short body)
  · rfl

theorem redirectsOf_ok {env : Env} {key s l : String} {w : World}
    (h : (serve env (Request.redirect s) w).1 = [Write.Redirect 307 l]) :
    redirectsOf env key (Request.redirect s) w = if s = key then 1 else 0 := by
  simp only [redirectsOf, h]

theorem redirectsOf_fail {env : Env} {key s : String} {w : World}
    (h : ∀ l, (serve env (Request.redirect s) w).1 ≠ [Write.Redirect 307 l]) :
    redirectsOf env key (Request.redirect s) w = 0 := by
  unfold redirectsOf
  split
  · next short l heq hresp =>
      cases heq
      exact absurd hresp (h l)
  · rfl

theorem redirectsOf_other {env : Env} {key : String} {r : Request} {w : World}
    (h : ∀ s, r ≠ Request.redirect s) : redirectsOf env key r w = 0 := by
  unfold redirectsOf
  split
  · next short l _ => exact absurd rfl (h short)
  · rfl

theorem mem_replace_of_ne {pre post : List Shortlink} {d e x : Shortlink}
    (hx : x ∈ pre ++ d :: post) (hne : x ≠ d) : x ∈ pre ++ e :: post := by
  simp only [List.mem_append, List.mem_cons] at hx ⊢
  rcases hx with h | h | h
  · exact Or.inl h
  · exact absurd h hne
  · exact Or.inr (Or.inr h)

theorem serve_follows_entity (env : Env) (w : World) (key : String) (r : Request)
    (e : Shortlink) (hU : UniqueShorts w.coll) (he : e ∈ w.coll) (hk : e.ShortUrl = key)
    (hnd : isDeleteOf key r = false) :
    ∃ e2 ∈ (serve env r w).2.coll, e2.ShortUrl = keyAfter env key r w ∧
      e2.AccessCount = e.AccessCount + (redirectsOf env key r w : Nat) ∧
      e2.ID = e.ID ∧ e2.CreatedAt = e.CreatedAt := by
  cases r with
  | redirect s =>
    have hkey : keyAfter env key (Request.redirect s) w = key :=
      keyAfter_other (fun a body h => Request.noConfusion h)
    rw [hkey]
    rcases serve_redirect_cases env w s with ⟨hc, hno⟩ | ⟨pre, d, post, _, hf, hserve⟩
    · rw [hc, redirectsOf_fail hno]
      exact ⟨e, he, hk, by simp, rfl, rfl⟩
    · obtain ⟨hl, hds, _⟩ := findFirst_eq_some hf
      have hr : (serve env (Request.redirect s) w).1 = [Write.Redirect 307 d.LongUrl] := by
        rw [hserve]
      rw [redirectsOf_ok hr, hserve]
      by_cases hsk : s = key
      · have hed : e = d := by
          apply unique_mem_eq hU he (by rw [hl]; simp)
          rw [hk, hds, hsk]
        subst hed
        refine ⟨{ e with AccessCount := e.AccessCount + 1 }, by simp, hk, ?_, rfl, rfl⟩
        simp [hsk]
      · have hne : e ≠ d := by
          intro h; apply hsk; rw [← hds, ← h, hk]
        rw [hl] at he
        exact ⟨e, mem_replace_of_ne he hne, hk, by simp [hsk], rfl, rfl⟩
  | getShortlinks =>
    rw [keyAfter_other (fun a body h => Request.noConfusion h),
      redirectsOf_other (fun s h => Request.noConfusion h), serve_getShortlinks]
    exact ⟨e, he, hk, by simp, rfl, rfl⟩
  | getShortlink s =>
    rw [keyAfter_other (fun a body h => Request.noConfusion h),
      redirectsOf_other (fun s h => Request.noConfusion h), serve_get_coll]
    exact ⟨e, he, hk, by simp, rfl, rfl⟩
  | check s =>
    rw [keyAfter_other (fun a body h => Request.noConfusion h),
      redirectsOf_other (fun s h => Request.noConfusion h), serve_check_coll]
    exact ⟨e, he, hk, by simp, rfl, rfl⟩
  | deleteShortlink s =>
    rw [keyAfter_other (fun a body h => Request.noConfusion h),
      redirectsOf_other (fun s h => Request.noConfusion h)]
    have hsk : s ≠ key := by simpa [isDeleteOf] using hnd
    rcases serve_delete_cases env w s with hc | ⟨_, hc⟩
    · rw [hc]; exact ⟨e, he, hk, by simp, rfl, rfl⟩
    · rw [hc]
      refine ⟨e, ?_, hk, by simp, rfl, rfl⟩
      rw [List.mem_filter]
      refine ⟨he, ?_⟩
      have : e.ShortUrl ≠ s := by rw [hk]; exact fun h => hsk h.symm
      simp [this]
  | createShortlink body =>
    rw [keyAfter_other (fun a body h => Request.noConfusion h),
      redirectsOf_other (fun s h => Request.noConfusion h)]
    rcases serve_create_cases env w body with hc | ⟨b, _, _, _, _, hserve⟩
    · rw [hc]; exact ⟨e, he, hk, by simp, rfl, rfl⟩
    · rw [hserve]
      exact ⟨e, List.mem_append_left _ he, hk, by simp, rfl, rfl⟩
  | updateShortlink a body =>
    rw [redirectsOf_other (fun s h => Request.noConfusion h)]
    rcases serve_update_cases env w a body with
      ⟨hc, hno⟩ | ⟨b, pre, d, post, _, _, _, _, hf, hfree, hserve⟩
    · rw [hc, keyAfter_update_fail hno]
      exact ⟨e, he, hk, by simp, rfl, rfl⟩
    · obtain ⟨hl, hda, _⟩ := findFirst_eq_some hf
      have hr : (serve env (Request.updateShortlink a body) w).1 =
          [Write.JSON 200 (Payload.shortlink
            (setFields ⟨b.short, b.long, b.descr, env.clock w.clockReads⟩ d))] := by
        rw [hserve]
      rw [keyAfter_update_ok hr, hserve]
      by_cases hak : a = key
      · have hed : e = d := by
          apply unique_mem_eq hU he (by rw [hl]; simp)
          rw [hk, hda, hak]
        subst hed
        refine ⟨setFields ⟨b.short, b.long, b.descr, env.clock w.clockReads⟩ e, by simp, ?_,
          ?_, rfl, rfl⟩
        · simp [hak]
        · simp [setFields]
      · have hne : e ≠ d := by
          intro h; apply hak; rw [← hda, ← h, hk]
        rw [hl] at he
        exact ⟨e, mem_replace_of_ne he hne, by simp [hak, hk], by simp, rfl, rfl⟩

theorem unique_mem_get (env : Env) (w : World) (e : Shortlink) (hU : UniqueShorts w.coll)
    (he : e ∈ w.coll) (hs : ValidShortKey e.ShortUrl) :
    (serve env (Request.getShortlink e.ShortUrl) w).1 =
      [Write.JSON 200 (Payload.shortlink e)] := by
  obtain ⟨pre, post, _, hf⟩ := unique_mem_findFirst hU he
  rw [serve_get_valid env w e.ShortUrl hs]
  simp only [hf]

/-- C10: in a store under its unique index, follow the entity stored under `key`
through any sequence of requests that holds no delete of it (renames move the
followed short). After the sequence the collection holds an entity under the final
short, with the same id and `created_at`, whose `access_count` is the initial one
plus the number of redirect resolutions of the entity in the sequence, hence not
smaller than before; a get of a valid final short reports exactly that entity. -/
theorem C10_access_count_counts_redirects (env : Env) (rs : List Request) (w : World)
    (key : String) (e : Shortlink) (hU : UniqueShorts w.coll) (he : e ∈ w.coll)
    (hk : e.ShortUrl = key) (hnd : neverDeleted env key rs w = true) :
    ∃ e2 ∈ (run env rs w).coll, e2.ShortUrl = finalKey env key rs w ∧
      e2.AccessCount = e.AccessCount + (countRedirects env key rs w : Nat) ∧
      e.AccessCount ≤ e2.AccessCount ∧ e2.ID = e.ID ∧ e2.CreatedAt = e.CreatedAt ∧
      (ValidShortKey (finalKey env key rs w) →
        (serve env (Request.getShortlink (finalKey env key rs w)) (run env rs w)).1 =
          [Write.JSON 200 (Payload.shortlink e2)]) := by
  induction rs generalizing w key e with
  | nil =>
    refine ⟨e, he, hk, by simp [countRedirects], le_refl _, rfl, rfl, ?_⟩
    intro hv
    simp only [finalKey, run, List.foldl_nil] at hv ⊢
    rw [← hk] at hv ⊢
    exact unique_mem_get env w e hU he hv
  | cons r rs ih =>
    simp only [neverDeleted, Bool.and_eq_true, Bool.not_eq_true'] at hnd
    obtain ⟨e1, he1, hk1, hc1, hid1, hcr1⟩ :=
      serve_follows_entity env w key r e hU he hk hnd.1
    obtain ⟨e2, he2, hk2, hc2, _, hid2, hcr2, hget⟩ :=
      ih (serve env r w).2 (keyAfter env key r w) e1
        (serve_preserves_unique env w r hU) he1 hk1 hnd.2
    refine ⟨e2, he2, hk2, ?_, ?_, hid2.trans hid1, hcr2.trans hcr1, hget⟩
    · rw [hc2, hc1]
      simp only [countRedirects, Nat.cast_add]
      ring
    · rw [hc2, hc1]
      omega

/-- C10 at the example shortlink, created with counter 0, redirected twice and then
renamed to `newurl`: it is found under `newurl` with `access_count` 2. -/
theorem C10_access_count_witness :
    finalKey sampleEnv "ex"
      [Request.redirect "ex", Request.redirect "ex",
       Request.updateShortlink "ex" (Except.ok renameBody)] sampleWorld = "newurl" ∧
    ∃ e2 ∈ (run sampleEnv
        [Request.redirect "ex", Request.redirect "ex",
         Request.updateShortlink "ex" (Except.ok renameBody)] sampleWorld).coll,
      e2.ShortUrl = "newurl" ∧ e2.AccessCount = 2 :=
  have hkey : finalKey sampleEnv "ex"
      [Request.redirect "ex", Request.redirect "ex",
       Request.updateShortlink "ex" (Except.ok renameBody)] sampleWorld = "newurl" := by decide
  have hcount : countRedirects sampleEnv "ex"
      [Request.redirect "ex", Request.redirect "ex",
       Request.updateShortlink "ex" (Except.ok renameBody)] sampleWorld = 2 := by decide
  have h := C10_access_count_counts_redirects sampleEnv
    [Request.redirect "ex", Request.redirect "ex",
     Request.updateShortlink "ex" (Except.ok renameBody)] sampleWorld "ex" sampleDoc
    sampleWorld_unique (by simp [sampleWorld]) rfl (by decide)
  ⟨hkey, h.elim fun e2 h2 => ⟨e2, h2.1, hkey ▸ h2.2.1, by
    have := h2.2.2.1
    rw [hcount] at this
    simpa [sampleDoc] using this⟩⟩

/-! ### Delete and check -/

theorem countP_short_unique {coll : List Shortlink} (s : String) (hU : UniqueShorts coll) :
    coll.countP (fun d => decide (d.ShortUrl = s)) = if hasShort s coll = true then 1 else 0 := by
  induction coll with
  | nil => simp [hasShort]
  | cons d ds ih =>
    have hds : UniqueShorts ds := by
      unfold UniqueShorts at hU ⊢
      rw [List.map_cons, List.nodup_cons] at hU
      exact hU.2
    have hd : ∀ x ∈ ds, x.ShortUrl ≠ d.ShortUrl := by
      have := @unique_split [] ds d (by simpa using hU)
      simpa using this
    by_cases h : d.ShortUrl = s
    · have hnone : hasShort s ds = false := by
        rw [hasShort_false_iff]; intro x hx; rw [← h]; exact hd x hx
      have hih := ih hds
      rw [hnone] at hih
      have hyes : hasShort s (d :: ds) = true := (hasShort_iff _ _).mpr ⟨d, by simp, h⟩
      rw [List.countP_cons, hih, hyes]
      simp [h]
    · have hsame : hasShort s (d :: ds) = hasShort s ds := by
        simp [hasShort, h]
      rw [List.countP_cons, ih hds, hsame]
      simp [h]

theorem mem_deleteMany (coll : List Shortlink) (s : String) (d : Shortlink) :
    d ∈ (collDeleteMany coll s).2 ↔ d ∈ coll ∧ d.ShortUrl ≠ s := by
  simp [collDeleteMany, List.mem_filter]

theorem findFirst_deleteMany (coll : List Shortlink) (s : String) :
    findFirst s (collDeleteMany coll s).2 = none := by
  rw [findFirst_eq_none_iff]
  intro d hd
  exact ((mem_deleteMany coll s d).mp hd).2

/-- C11: in every state reached from the empty store and for every valid short `s`,
a delete answers 200 with `deleted` 1 if an entity with short `s` exists and with
`deleted` 0 if none exists, so never with another count and never with 404;
afterwards the collection is the old one without the entity of short `s`, every
entity with a different short being kept as it was, a get of `s` answers 404 and a
check of `s` answers `free` true. -/
theorem C11_delete_reports_zero_or_one (env : Env) (w : World) (s : String)
    (hreach : ∃ rs, w = run env rs World.init) (hs : ValidShortKey s) :
    ((∃ d ∈ w.coll, d.ShortUrl = s) →
      (serve env (Request.deleteShortlink s) w).1 = [Write.JSON 200 (Payload.deleted 1)]) ∧
    ((∀ d ∈ w.coll, d.ShortUrl ≠ s) →
      (serve env (Request.deleteShortlink s) w).1 = [Write.JSON 200 (Payload.deleted 0)]) ∧
    ((serve env (Request.deleteShortlink s) w).1 = [Write.JSON 200 (Payload.deleted 0)] ∨
      (serve env (Request.deleteShortlink s) w).1 = [Write.JSON 200 (Payload.deleted 1)]) ∧
    (serve env (Request.deleteShortlink s) w).2.coll =
      w.coll.filter (fun d => !decide (d.ShortUrl = s)) ∧
    (∀ d, d ∈ (serve env (Request.deleteShortlink s) w).2.coll ↔ d ∈ w.coll ∧ d.ShortUrl ≠ s) ∧
    (serve env (Request.getShortlink s) (serve env (Request.deleteShortlink s) w).2).1 =
      [Write.JSON 404 (Payload.error "shortlink not found")] ∧
    (serve env (Request.check s) (serve env (Request.deleteShortlink s) w).2).1 =
      [Write.JSON 200 (Payload.free true)] := by
  obtain ⟨rs, rfl⟩ := hreach
  have hU : UniqueShorts (run env rs World.init).coll :=
    run_preserves_unique env rs World.init (by simp [UniqueShorts, World.init])
  generalize run env rs World.init = w at hU
  have hcount := countP_short_unique s hU
  have hserve := serve_delete_valid env w s hs
  have hyes : (∃ d ∈ w.coll, d.ShortUrl = s) →
      (serve env (Request.deleteShortlink s) w).1 = [Write.JSON 200 (Payload.deleted 1)] := by
    intro hex
    rw [hserve]
    simp only [collDeleteMany, hcount, (hasShort_iff s w.coll).mpr hex, if_true]
    rfl
  have hno : (∀ d ∈ w.coll, d.ShortUrl ≠ s) →
      (serve env (Request.deleteShortlink s) w).1 = [Write.JSON 200 (Payload.deleted 0)] := by
    intro hall
    rw [hserve]
    simp only [collDeleteMany, hcount, (hasShort_false_iff s w.coll).mpr hall]
    rfl
  refine ⟨hyes, hno, ?_, ?_, ?_, ?_, ?_⟩
  · by_cases hex : ∃ d ∈ w.coll, d.ShortUrl = s
    · exact Or.inr (hyes hex)
    · left
      apply hno
      intro d hd hds
      exact hex ⟨d, hd, hds⟩
  · rw [hserve]; rfl
  · intro d
    rw [hserve]
    exact mem_deleteMany w.coll s d
  · rw [hserve, serve_get_valid env _ s hs]
    simp only [findFirst_deleteMany]
  · rw [hserve, serve_check_valid env _ s hs]
    simp only [findFirst_deleteMany]
    rfl

/-- C11 at a delete of the example shortlink right after it was created. -/
theorem C11_delete_witness :
    (serve sampleEnv (Request.deleteShortlink "ex") sampleWorld).1 =
      [Write.JSON 200 (Payload.deleted 1)] ∧
    (serve sampleEnv (Request.deleteShortlink "ex") sampleWorld).2.coll = [] :=
  have h := C11_delete_reports_zero_or_one sampleEnv sampleWorld "ex"
    ⟨[Request.createShortlink (Except.ok exampleBody)], by decide⟩ validShortKey_ex
  ⟨h.1 ⟨sampleDoc, by simp [sampleWorld], rfl⟩, h.2.2.2.1.trans (by decide)⟩

theorem serve_keeps_absent (env : Env) (w : World) (s : String) (r : Request)
    (habs : ∀ d ∈ w.coll, d.ShortUrl ≠ s) (hr : writesShort s r = false) :
    ∀ d ∈ (serve env r w).2.coll, d.ShortUrl ≠ s := by
  cases r with
  | redirect k =>
    rcases serve_redirect_cases env w k with ⟨hc, _⟩ | ⟨pre, e, post, _, hf, hserve⟩
    · rw [hc]; exact habs
    · obtain ⟨hl, _, _⟩ := findFirst_eq_some hf
      rw [hserve]
      intro d hd
      simp only [List.mem_append, List.mem_cons] at hd
      rcases hd with h | rfl | h
      · exact habs d (by rw [hl]; simp [h])
      · exact habs e (by rw [hl]; simp)
      · exact habs d (by rw [hl]; simp [h])
  | getShortlinks => rw [serve_getShortlinks]; exact habs
  | getShortlink k => rw [serve_get_coll]; exact habs
  | check k => rw [serve_check_coll]; exact habs
  | deleteShortlink k =>
    rcases serve_delete_cases env w k with hc | ⟨_, hc⟩
    · rw [hc]; exact habs
    · rw [hc]; intro d hd; exact habs d (List.mem_of_mem_filter hd)
  | createShortlink body =>
    rcases serve_create_cases env w body with hc | ⟨b, hb, _, _, _, hserve⟩
    · rw [hc]; exact habs
    · subst hb
      have hbs : b.short ≠ s := by simpa [writesShort] using hr
      rw [hserve]
      intro d hd
      simp only [List.mem_append, List.mem_singleton] at hd
      rcases hd with h | rfl
      · exact habs d h
      · exact hbs
  | updateShortlink a body =>
    rcases serve_update_cases env w a body with
      ⟨hc, _⟩ | ⟨b, pre, e, post, hb, _, _, _, hf, _, hserve⟩
    · rw [hc]; exact habs
    · subst hb
      have hbs : b.short ≠ s := by simpa [writesShort] using hr
      obtain ⟨hl, _, _⟩ := findFirst_eq_some hf
      rw [hserve]
      intro d hd
      simp only [List.mem_append, List.mem_cons] at hd
      rcases hd with h | rfl | h
      · exact habs d (by rw [hl]; simp [h])
      · exact hbs
      · exact habs d (by rw [hl]; simp [h])

theorem run_keeps_absent (env : Env) (s : String) (rs : List Request) (w : World)
    (habs : ∀ d ∈ w.coll, d.ShortUrl ≠ s) (hr : ∀ r ∈ rs, writesShort s r = false) :
    ∀ d ∈ (run env rs w).coll, d.ShortUrl ≠ s := by
  induction rs generalizing w with
  | nil => exact habs
  | cons r rs ih =>
    rw [run_cons]
    exact ih _ (serve_keeps_absent env w s r habs (hr r (List.mem_cons_self _ _)))
      (fun x hx => hr x (List.mem_cons_of_mem _ hx))

theorem check_free_of_absent (env : Env) (w : World) (s : String) (hs : ValidShortKey s)
    (habs : ∀ d ∈ w.coll, d.ShortUrl ≠ s) :
    (serve env (Request.check s) w).1 = [Write.JSON 200 (Payload.free true)] := by
  rw [serve_check_valid env w s hs, (findFirst_eq_none_iff s w.coll).mpr habs]
  rfl

theorem check_taken_of_present (env : Env) (w : World) (s : String) (hs : ValidShortKey s)
    (hex : ∃ d ∈ w.coll, d.ShortUrl = s) :
    (serve env (Request.check s) w).1 = [Write.JSON 200 (Payload.free false)] := by
  rw [serve_check_valid env w s hs]
  cases hf : findFirst s w.coll with
  | none =>
    obtain ⟨d, hd, hds⟩ := hex
    exact absurd hds ((findFirst_eq_none_iff s w.coll).mp hf d hd)
  | some t => rfl

/-- C12: for every store state and every valid short `s`, a check answers 200 with
`free` true if no stored entity has short `s` and with `free` false if one has; it
answers `free` true exactly when a get of `s` answers 404, never answers 404
itself and leaves the collection as it was. Hence the answer is false right after
a create of `s` answered 201, true right after a delete of `s`, and true in every
state reached from the empty store by requests none of which created `s` or
renamed to `s`. -/
theorem C12_check_absorbs_not_found (env : Env) (w : World) (s : String)
    (hs : ValidShortKey s) :
    ((∀ d ∈ w.coll, d.ShortUrl ≠ s) →
      (serve env (Request.check s) w).1 = [Write.JSON 200 (Payload.free true)]) ∧
    ((∃ d ∈ w.coll, d.ShortUrl = s) →
      (serve env (Request.check s) w).1 = [Write.JSON 200 (Payload.free false)]) ∧
    ((serve env (Request.check s) w).1 = [Write.JSON 200 (Payload.free true)] ↔
      (serve env (Request.getShortlink s) w).1 =
        [Write.JSON 404 (Payload.error "shortlink not found")]) ∧
    (∀ p, (serve env (Request.check s) w).1 ≠ [Write.JSON 404 p]) ∧
    (serve env (Request.check s) w).2.coll = w.coll ∧
    (∀ b : JSONBody, b.short = s →
      (serve env (Request.createShortlink (Except.ok b)) w).1 = [Write.Status 201] →
      (serve env (Request.check s) (serve env (Request.createShortlink (Except.ok b)) w).2).1 =
        [Write.JSON 200 (Payload.free false)]) ∧
    (serve env (Request.check s) (serve env (Request.deleteShortlink s) w).2).1 =
      [Write.JSON 200 (Payload.free true)] ∧
    (∀ rs : List Request, (∀ r ∈ rs, writesShort s r = false) →
      (serve env (Request.check s) (run env rs World.init)).1 =
        [Write.JSON 200 (Payload.free true)]) := by
  refine ⟨check_free_of_absent env w s hs, check_taken_of_present env w s hs, ?_, ?_,
    serve_check_coll env w s, ?_, ?_, ?_⟩
  · rw [serve_check_valid env w s hs, serve_get_valid env w s hs]
    cases hf : findFirst s w.coll with
    | none => simp
    | some t => obtain ⟨pre, d, post⟩ := t; simp
  · intro p
    rw [serve_check_valid env w s hs]
    simp
  · intro b hb hcreated
    subst hb
    apply check_taken_of_present env _ b.short hs
    by_cases hu : URLRuleFails env b.long
    · rw [serve_url_failure env w (Request.createShortlink (Except.ok b))
        (by simpa [Request.shorts] using hs) ⟨b.long, rfl, hu⟩] at hcreated
      simp at hcreated
    · rw [serve_create_valid env w b hs hu] at hcreated ⊢
      by_cases hd : hasShort b.short w.coll = true
      · rw [if_pos hd] at hcreated
        simp at hcreated
      · rw [if_neg hd]
        exact ⟨_, List.mem_append_right _ (List.mem_singleton_self _), rfl⟩
  · apply check_free_of_absent env _ s hs
    rw [serve_delete_valid env w s hs]
    intro d hd
    exact ((mem_deleteMany w.coll s d).mp hd).2
  · intro rs hrs
    apply check_free_of_absent env _ s hs
    exact run_keeps_absent env s rs World.init (by simp [World.init]) hrs

/-- C12 at the example shortlink: free on the empty store, taken once created. -/
theorem C12_check_witness :
    (serve sampleEnv (Request.check "ex") World.init).1 =
      [Write.JSON 200 (Payload.free true)] ∧
    (serve sampleEnv (Request.check "ex") sampleWorld).1 =
      [Write.JSON 200 (Payload.free false)] :=
  ⟨(C12_check_absorbs_not_found sampleEnv World.init "ex" validShortKey_ex).1
      (by intro d hd; simp [World.init] at hd),
   (C12_check_absorbs_not_found sampleEnv sampleWorld "ex" validShortKey_ex).2.1
      ⟨sampleDoc, by simp [sampleWorld], rfl⟩⟩

/-! ### Well-formed entities -/

theorem serve_preserves_wellFormed (env : Env) (w : World) (r : Request)
    (h : ∀ d ∈ w.coll, WellFormed env d) : ∀ d ∈ (serve env r w).2.coll, WellFormed env d := by
  cases r with
  | redirect k =>
    rcases serve_redirect_cases env w k with ⟨hc, _⟩ | ⟨pre, e, post, _, hf, hserve⟩
    · rw [hc]; exact h
    · obtain ⟨hl, _, _⟩ := findFirst_eq_some hf
      rw [hserve]
      intro d hd
      simp only [List.mem_append, List.mem_cons] at hd
      rcases hd with hm | rfl | hm
      · exact h d (by rw [hl]; simp [hm])
      · exact h e (by rw [hl]; simp)
      · exact h d (by rw [hl]; simp [hm])
  | getShortlinks => rw [serve_getShortlinks]; exact h
  | getShortlink k => rw [serve_get_coll]; exact h
  | check k => rw [serve_check_coll]; exact h
  | deleteShortlink k =>
    rcases serve_delete_cases env w k with hc | ⟨_, hc⟩
    · rw [hc]; exact h
    · rw [hc]; intro d hd; exact h d (List.mem_of_mem_filter hd)
  | createShortlink body =>
    rcases serve_create_cases env w body with hc | ⟨b, _, hs, hu, _, hserve⟩
    · rw [hc]; exact h
    · rw [hserve]
      intro d hd
      simp only [List.mem_append, List.mem_singleton] at hd
      rcases hd with hm | rfl
      · exact h d hm
      · exact ⟨hs, hu⟩
  | updateShortlink a body =>
    rcases serve_update_cases env w a body with
      ⟨hc, _⟩ | ⟨b, pre, e, post, _, _, hs, hu, hf, _, hserve⟩
    · rw [hc]; exact h
    · obtain ⟨hl, _, _⟩ := findFirst_eq_some hf
      rw [hserve]
      intro d hd
      simp only [List.mem_append, List.mem_cons] at hd
      rcases hd with hm | rfl | hm
      · exact h d (by rw [hl]; simp [hm])
      · exact ⟨hs, hu⟩
      · exact h d (by rw [hl]; simp [hm])

theorem run_preserves_wellFormed (env : Env) (rs : List Request) (w : World)
    (h : ∀ d ∈ w.coll, WellFormed env d) : ∀ d ∈ (run env rs w).coll, WellFormed env d := by
  induction rs generalizing w with
  | nil => exact h
  | cons r rs ih => rw [run_cons]; exact ih _ (serve_preserves_wellFormed env w r h)

/-- C13: in every state reached from the empty store by any sequence of requests,
every stored entity has a short that matches the key-syntax rule and a long that
passes the URL rule (it parses, with a scheme and a host that are not empty);
hence the target of every 307 that a redirect issues in such a state passes the
URL rule. -/
theorem C13_stored_entities_are_well_formed (env : Env) (rs : List Request) :
    (∀ d ∈ (run env rs World.init).coll,
      ValidShortKey d.ShortUrl ∧ ¬ URLRuleFails env d.LongUrl) ∧
    (∀ s l, (serve env (Request.redirect s) (run env rs World.init)).1 =
        [Write.Redirect 307 l] → ¬ URLRuleFails env l) := by
  have hwf : ∀ d ∈ (run env rs World.init).coll, WellFormed env d :=
    run_preserves_wellFormed env rs World.init (by simp [World.init])
  refine ⟨hwf, ?_⟩
  intro s l hresp
  rcases serve_redirect_cases env (run env rs World.init) s with
    ⟨_, hno⟩ | ⟨pre, e, post, _, hf, hserve⟩
  · exact absurd hresp (hno l)
  · obtain ⟨hl, _, _⟩ := findFirst_eq_some hf
    rw [hserve] at hresp
    simp only [List.cons.injEq, Write.Redirect.injEq, and_true, true_and] at hresp
    rw [← hresp]
    exact (hwf e (by rw [hl]; simp)).2

/-- C13 at the example shortlink, created and then renamed to `newurl`. -/
theorem C13_well_formed_witness :
    ValidShortKey "newurl" ∧ ¬ URLRuleFails sampleEnv "http://example.com" :=
  (C13_stored_entities_are_well_formed sampleEnv
    [Request.createShortlink (Except.ok exampleBody),
     Request.updateShortlink "ex" (Except.ok renameBody)]).1
    ⟨1, "newurl", "http://example.com", "Example item", 0, 1000, 1002⟩ (by decide)

/-! ### Timestamps -/

theorem serve_clockReads_le (env : Env) (w : World) (r : Request) :
    w.clockReads ≤ (serve env r w).2.clockReads := by
  cases r with
  | redirect k =>
    by_cases hs : ValidShortKey k
    · rw [serve_redirect_valid env w k hs]
      split <;> exact le_refl _
    · rw [serve_short_failure env w _ ⟨k, by simp [Request.shorts], hs⟩]
  | getShortlinks => rw [serve_getShortlinks]
  | getShortlink k =>
    by_cases hs : ValidShortKey k
    · rw [serve_get_valid env w k hs]
    · rw [serve_short_failure env w _ ⟨k, by simp [Request.shorts], hs⟩]
  | check k =>
    by_cases hs : ValidShortKey k
    · rw [serve_check_valid env w k hs]
    · rw [serve_short_failure env w _ ⟨k, by simp [Request.shorts], hs⟩]
  | deleteShortlink k =>
    by_cases hs : ValidShortKey k
    · rw [serve_delete_valid env w k hs]
    · rw [serve_short_failure env w _ ⟨k, by simp [Request.shorts], hs⟩]
  | createShortlink body =>
    rcases serve_create_cases env w body with hc | ⟨b, _, _, _, _, hserve⟩
    · cases body with
      | error err => rw [serve_create_unbound]
      | ok b =>
        by_cases hs : ValidShortKey b.short
        · by_cases hu : URLRuleFails env b.long
          · rw [serve_url_failure env w (Request.createShortlink (Except.ok b))
              (by simpa [Request.shorts] using hs) ⟨b.long, rfl, hu⟩]
          · rw [serve_create_valid env w b hs hu]
            split <;> exact Nat.le_add_right _ _
        · rw [serve_short_failure env w _ ⟨b.short, by simp [Request.shorts], hs⟩]
    · rw [hserve]; exact Nat.le_add_right _ _
  | updateShortlink a body =>
    by_cases ha : ValidShortKey a
    · cases body with
      | error err => rw [serve_update_unbound env w a err ha]
      | ok b =>
        by_cases hs : ValidShortKey b.short
        · by_cases hu : URLRuleFails env b.long
          · rw [serve_url_failure env w (Request.updateShortlink a (Except.ok b)) (by
              intro s hmem
              simp only [Request.shorts, List.mem_cons, List.mem_singleton, List.not_mem_nil,
                or_false] at hmem
              rcases hmem with rfl | rfl
              · exact ha
              · exact hs) ⟨b.long, rfl, hu⟩]
          · rw [serve_update_valid env w a b ha hs hu]
            split <;> exact Nat.le_add_right _ _
        · rw [serve_short_failure env w _ ⟨b.short, by simp [Request.shorts], hs⟩]
    · have hmem : a ∈ (Request.updateShortlink a body).shorts := by
        cases body <;> simp [Request.shorts]
      rw [serve_short_failure env w _ ⟨a, hmem, ha⟩]

theorem stamped_mono {env : Env} {w v : World} {d : Shortlink} (hle : w.clockReads ≤ v.clockReads)
    (h : Stamped env w d) : Stamped env v d := by
  obtain ⟨k, j, hkj, hj, hc, hu⟩ := h
  exact ⟨k, j, hkj, lt_of_lt_of_le hj hle, hc, hu⟩

theorem serve_preserves_stamped (env : Env) (w : World) (r : Request)
    (h : ∀ d ∈ w.coll, Stamped env w d) :
    ∀ d ∈ (serve env r w).2.coll, Stamped env (serve env r w).2 d := by
  have hle := serve_clockReads_le env w r
  have hold : ∀ d ∈ w.coll, Stamped env (serve env r w).2 d :=
    fun d hd => stamped_mono hle (h d hd)
  cases r with
  | redirect k =>
    rcases serve_redirect_cases env w k with ⟨hc, _⟩ | ⟨pre, e, post, _, hf, hserve⟩
    · rw [hc]; exact hold
    · obtain ⟨hl, _, _⟩ := findFirst_eq_some hf
      intro d hd
      rw [hserve] at hd
      simp only [List.mem_append, List.mem_cons] at hd
      rcases hd with hm | rfl | hm
      · exact hold d (by rw [hl]; simp [hm])
      · have he := hold e (by rw [hl]; simp)
        exact he
      · exact hold d (by rw [hl]; simp [hm])
  | getShortlinks => rw [serve_getShortlinks] at hold ⊢; exact hold
  | getShortlink k => intro d hd; rw [serve_get_coll] at hd; exact hold d hd
  | check k => intro d hd; rw [serve_check_coll] at hd; exact hold d hd
  | deleteShortlink k =>
    rcases serve_delete_cases env w k with hc | ⟨_, hc⟩
    · intro d hd; rw [hc] at hd; exact hold d hd
    · intro d hd; rw [hc] at hd; exact hold d (List.mem_of_mem_filter hd)
  | createShortlink body =>
    rcases serve_create_cases env w body with hc | ⟨b, _, _, _, _, hserve⟩
    · intro d hd; rw [hc] at hd; exact hold d hd
    · intro d hd
      have hd2 := hd
      rw [hserve] at hd2
      simp only [List.mem_append, List.mem_singleton] at hd2
      rcases hd2 with hm | rfl
      · exact hold d hm
      · rw [hserve]
        exact ⟨w.clockReads, w.clockReads + 1, Nat.le_succ _, Nat.lt_succ_self _, rfl, rfl⟩
  | updateShortlink a body =>
    rcases serve_update_cases env w a body with
      ⟨hc, _⟩ | ⟨b, pre, e, post, _, _, _, _, hf, _, hserve⟩
    · intro d hd; rw [hc] at hd; exact hold d hd
    · obtain ⟨hl, _, _⟩ := findFirst_eq_some hf
      intro d hd
      have hd2 := hd
      rw [hserve] at hd2
      simp only [List.mem_append, List.mem_cons] at hd2
      rcases hd2 with hm | rfl | hm
      · exact hold d (by rw [hl]; simp [hm])
      · obtain ⟨k, j, hkj, hj, hcr, _⟩ := h e (by rw [hl]; simp)
        rw [hserve]
        exact ⟨k, w.clockReads, le_of_lt (lt_of_le_of_lt hkj hj), Nat.lt_succ_self _, hcr, rfl⟩
      · exact hold d (by rw [hl]; simp [hm])

theorem run_preserves_stamped (env : Env) (rs : List Request) (w : World)
    (h : ∀ d ∈ w.coll, Stamped env w d) :
    ∀ d ∈ (run env rs w).coll, Stamped env (run env rs w) d := by
  induction rs generalizing w with
  | nil => exact h
  | cons r rs ih => rw [run_cons]; exact ih _ (serve_preserves_stamped env w r h)

theorem run_follows_entity (env : Env) (rs : List Request) (w : World) (key : String)
    (e : Shortlink) (hU : UniqueShorts w.coll) (he : e ∈ w.coll) (hk : e.ShortUrl = key)
    (hnd : neverDeleted env key rs w = true) :
    ∃ e2 ∈ (run env rs w).coll, e2.ShortUrl = finalKey env key rs w ∧ e2.ID = e.ID ∧
      e2.CreatedAt = e.CreatedAt := by
  induction rs generalizing w key e with
  | nil => exact ⟨e, he, hk, rfl, rfl⟩
  | cons r rs ih =>
    simp only [neverDeleted, Bool.and_eq_true, Bool.not_eq_true'] at hnd
    obtain ⟨e1, he1, hk1, _, hid1, hcr1⟩ :=
      serve_follows_entity env w key r e hU he hk hnd.1
    obtain ⟨e2, he2, hk2, hid2, hcr2⟩ :=
      ih (serve env r w).2 (keyAfter env key r w) e1
        (serve_preserves_unique env w r hU) he1 hk1 hnd.2
    exact ⟨e2, he2, hk2, hid2.trans hid1, hcr2.trans hcr1⟩

theorem serve_create_created (env : Env) (w : World) (b : JSONBody)
    (h : (serve env (Request.createShortlink (Except.ok b)) w).1 = [Write.Status 201]) :
    serve env (Request.createShortlink (Except.ok b)) w =
      ([Write.Status 201],
        ⟨w.coll ++ [⟨env.objectID w.idsDrawn, b.short, b.long, b.descr, b.access_count,
            env.clock w.clockReads, env.clock (w.clockReads + 1)⟩],
          w.clockReads + 2, w.idsDrawn + 1, w.calls ++ [StoreCall.InsertOne]⟩) := by
  by_cases hs : ValidShortKey b.short
  · by_cases hu : URLRuleFails env b.long
    · rw [serve_url_failure env w (Request.createShortlink (Except.ok b))
        (by simpa [Request.shorts] using hs) ⟨b.long, rfl, hu⟩] at h
      simp at h
    · rw [serve_create_valid env w b hs hu] at h ⊢
      by_cases hd : hasShort b.short w.coll = true
      · rw [if_pos hd] at h; simp at h
      · rw [if_neg hd]
  · rw [serve_short_failure env w _ ⟨b.short, by simp [Request.shorts], hs⟩] at h
    simp at h

theorem sampleEnv_clock_monotone : Monotone sampleEnv.clock := by
  intro a b hab
  show (1000 : Int) + (a : Int) ≤ 1000 + (b : Int)
  omega

/-- C14: if successive clock readings never decrease, then in every state reached
from the empty store by any sequence of requests every stored entity has
`created_at` not after `updated_at`; the entity stored by a create answered 201
has both timestamps not before any reading taken before the create and not after
any reading taken after it; and an entity of a reachable state, followed through
any further requests that do not delete it, keeps its `created_at`. -/
theorem C14_timestamps_stay_ordered (env : Env) (hmono : Monotone env.clock) :
    (∀ rs : List Request, ∀ d ∈ (run env rs World.init).coll, d.CreatedAt ≤ d.UpdatedAt) ∧
    (∀ (w : World) (b : JSONBody),
      (serve env (Request.createShortlink (Except.ok b)) w).1 = [Write.Status 201] →
      ∃ d, (serve env (Request.createShortlink (Except.ok b)) w).2.coll = w.coll ++ [d] ∧
        d.ShortUrl = b.short ∧ d.CreatedAt ≤ d.UpdatedAt ∧
        ∀ i j, i < w.clockReads →
          (serve env (Request.createShortlink (Except.ok b)) w).2.clockReads ≤ j →
          env.clock i ≤ d.CreatedAt ∧ d.CreatedAt ≤ env.clock j ∧
          env.clock i ≤ d.UpdatedAt ∧ d.UpdatedAt ≤ env.clock j) ∧
    (∀ (rs1 rs2 : List Request) (key : String) (e : Shortlink),
      e ∈ (run env rs1 World.init).coll → e.ShortUrl = key →
      neverDeleted env key rs2 (run env rs1 World.init) = true →
      ∃ e2 ∈ (run env rs2 (run env rs1 World.init)).coll,
        e2.ShortUrl = finalKey env key rs2 (run env rs1 World.init) ∧
        e2.CreatedAt = e.CreatedAt) := by
  refine ⟨?_, ?_, ?_⟩
  · intro rs d hd
    obtain ⟨k, j, hkj, _, hc, hu⟩ :=
      run_preserves_stamped env rs World.init (by simp [World.init]) d hd
    rw [hc, hu]
    exact hmono hkj
  · intro w b hcreated
    have hserve := serve_create_created env w b hcreated
    rw [hserve]
    refine ⟨_, rfl, rfl, hmono (Nat.le_succ _), ?_⟩
    intro i j hi hj
    simp only at hj
    exact ⟨hmono (le_of_lt hi), hmono (by omega), hmono (by omega), hmono (by omega)⟩
  · intro rs1 rs2 key e he hk hnd
    have hU : UniqueShorts (run env rs1 World.init).coll :=
      run_preserves_unique env rs1 World.init (by simp [UniqueShorts, World.init])
    obtain ⟨e2, he2, hk2, _, hcr⟩ :=
      run_follows_entity env rs2 (run env rs1 World.init) key e hU he hk hnd
    exact ⟨e2, he2, hk2, hcr⟩

/-- C14 at the example shortlink as the first create on the empty store leaves it. -/
theorem C14_timestamps_witness : sampleDoc.CreatedAt ≤ sampleDoc.UpdatedAt :=
  (C14_timestamps_stay_ordered sampleEnv sampleEnv_clock_monotone).1
    [Request.createShortlink (Except.ok exampleBody)] sampleDoc (by decide)

end Shorty
